import Mathlib

/-! Variant selection widget (`slate.Variants`), currency helper
(`theme.Currency`) and utility helpers (`slate.utils`) of `assets/theme.js`.

A shallow embedding of the variant matcher, of the change notifier built on it,
of `formatMoney`, and of `compact` and `defaultTo`, followed by the properties
proved about them.

* JavaScript values are the inductive type `JSValue`; numbers that occur in the
  catalog are integers (prices in minor units, ids).
* Property names of a variant record are the type `PropertyKey`; the key
  `PropertyKey.option k` stands for the name `"option" + k` (`option1`,
  `option2`, ...).
* A method that reads and writes `this` and the page is a function on the
  record `Variants`; an exception is the `Except.error` result, which carries
  the state reached when the exception was raised.
* Amounts are integers that are IEEE 754 doubles (every integer up to `2 ^ 53`
  in absolute value, and the larger ones with at most 53 significant bits)
  below `100 * 2 ^ 53` in absolute value; `number / 100.0` is the correctly
  rounded double quotient and `toFixed` rounds the exact value of that double,
  both computed on integers.
* An array is a list of `Item`; the loop of `compact` is run on a record of its
  variables, the argument array included.
-/

namespace Slate

/-! ## Values -/

/-- JavaScript values that occur in the widget.  An `object` carries no
identity: the only objects compared here are one owned by the catalog and one
freshly read from a control, and those are never the same reference. -/
inductive JSValue where
  | undefined
  | null
  | boolean (b : Bool)
  | number (n : Int)
  | string (s : String)
  | object
  deriving DecidableEq, Repr

/-- The operator `===` on the values above (no `NaN` occurs: numbers are
integers).  Two objects are different references, see `JSValue`. -/
def strictEquals : JSValue → JSValue → Bool
  | .undefined, .undefined => true
  | .null, .null => true
  | .boolean a, .boolean b => a == b
  | .number a, .number b => a == b
  | .string a, .string b => a == b
  | _, _ => false

/-- The conversion of a value to a boolean, as in `if (value)`. -/
def JSValue.truthy : JSValue → Bool
  | .undefined => false
  | .null => false
  | .boolean b => b
  | .number n => n != 0
  | .string s => !s.isEmpty
  | .object => true

/-! ## Utility helpers (`slate.utils.compact`, `Variants.prototype._compact`) -/

/-- An element of a JavaScript array: one of the values of `JSValue`, the
number `NaN`, or an object described by a record of type `α`. -/
inductive Item (α : Type) where
  | value (v : JSValue)
  | nan
  | record (a : α)
  deriving DecidableEq, Repr

/-- The conversion of an array element to a boolean: `NaN` is falsy, an object
is truthy. -/
def Item.truthy {α : Type} : Item α → Bool
  | .value v => v.truthy
  | .nan => false
  | .record _ => true

/-- An array argument that may be missing: `undefined`, `null` or an array. -/
inductive ArrayArg (α : Type) where
  | undefined
  | null
  | array (items : List (Item α))
  deriving DecidableEq, Repr

/-- The variables of a run of `compact`: the argument `array` and the locals
`index` (which starts at `-1`), `length`, `resIndex` and `result`. -/
structure CompactState (α : Type) where
  array : ArrayArg α
  index : Int
  length : Nat
  resIndex : Nat
  result : List (Item α)

/-- The read `array[index]`: `none` stands for `undefined`. -/
def ArrayArg.read {α : Type} (array : ArrayArg α) (index : Int) : Option (Item α) :=
  match array with
  | .array items => if index < 0 then none else items.get? index.toNat
  | _ => none

/-- The write `result[resIndex] = value`; `resIndex` is never beyond the end of
`result`. -/
def assignAt {α : Type} (result : List (Item α)) (resIndex : Nat) (value : Item α) :
    List (Item α) :=
  if resIndex < result.length then result.set resIndex value else result ++ [value]

/-- The loop `while (++index < length) { ... }` of `compact` (theme.js 61-66),
run for at most `fuel` tests of its condition. -/
def compactLoop {α : Type} : Nat → CompactState α → CompactState α
  | 0, state => state
  | fuel + 1, state =>
    let state := { state with index := state.index + 1 }
    if state.index < state.length then
      match state.array.read state.index with
      | some value =>
        if value.truthy then
          compactLoop fuel
            { state with
              result := assignAt state.result state.resIndex value
              resIndex := state.resIndex + 1 }
        else
          compactLoop fuel state
      | none => compactLoop fuel state
    else
      state

/-- The state in which `compact(array)` leaves its variables: the loop is run
from `index = -1`, `resIndex = 0`, `result = []`, with `length + 1` tests of
the condition, the last of which fails. -/
def compactRun {α : Type} (array : ArrayArg α) : CompactState α :=
  let length :=
    match array with
    | .array items => items.length
    | _ => 0
  compactLoop (length + 1) ⟨array, -1, length, 0, []⟩

/-- `slate.utils.compact` (theme.js 55-68): the array `result` it returns. -/
def compact {α : Type} (array : ArrayArg α) : List (Item α) :=
  (compactRun array).result

/-- `Variants.prototype._compact` (theme.js 652-665), the same function. -/
def _compact {α : Type} (array : ArrayArg α) : List (Item α) :=
  (compactRun array).result

/-! ## Data model -/

/-- Names of the properties of a variant record.  `option k` is the name
`"option" + k`; `absent name` is any name that no variant record has. -/
inductive PropertyKey where
  | option (position : Nat)
  | id
  | price
  | compare_at_price
  | sku
  | available
  | featured_image
  | options
  | absent (name : String)
  deriving DecidableEq, Repr

/-- The record `featured_image` of a variant. -/
structure Image where
  id : Nat
  src : String
  deriving DecidableEq, Repr

/-- One variant record of `product.variants`.  The list `options` holds the
values of `option1`, `option2`, ... in that order. -/
structure Variant where
  id : Nat
  options : List String
  price : Int
  compare_at_price : Option Int
  sku : String
  available : Bool
  featured_image : Option Image
  deriving DecidableEq, Repr

/-- The catalog object `product`: option names in position order and the
variant records in catalog order. -/
structure Product where
  options : List String
  variants : List Variant
  deriving DecidableEq, Repr

/-- The property access `variant[key]`. -/
def Variant.get (variant : Variant) : PropertyKey → JSValue
  | .option 0 => .undefined
  | .option (k + 1) =>
    match variant.options.get? k with
    | some value => .string value
    | none => .undefined
  | .id => .number variant.id
  | .price => .number variant.price
  | .compare_at_price =>
    match variant.compare_at_price with
    | some n => .number n
    | none => .null
  | .sku => .string variant.sku
  | .available => .boolean variant.available
  | .featured_image =>
    match variant.featured_image with
    | some _ => .object
    | none => .null
  | .options => .object
  | .absent _ => .undefined

/-- One entry `{value, index}` of the array built by `_getCurrentOptions`:
the value read from a control and the property name in its `data-index`. -/
structure SelectedOption where
  value : JSValue
  index : PropertyKey
  deriving DecidableEq, Repr

/-- An option control matched by `singleOptionSelector`: its `type` attribute
(`none` when the element has none, as a `select`), whether it is checked, the
value `$element.val()` and the property name in its `data-index`. -/
structure Control where
  type : Option String
  checked : Bool
  value : JSValue
  index : PropertyKey
  deriving DecidableEq, Repr

/-- The callback that `_getCurrentOptions` maps over the controls (theme.js
525-545): the object `{value, index}`, or `false` for a radio button or
checkbox that is not checked. -/
def currentOptionOf (element : Control) : Item SelectedOption :=
  if element.type == some "radio" || element.type == some "checkbox" then
    if element.checked then
      .record ⟨element.value, element.index⟩
    else
      .value (.boolean false)
  else
    .record ⟨element.value, element.index⟩

/-- `Variants.prototype._getCurrentOptions` (theme.js 524-551) on the controls
in document order: `$.map` keeps every result of the callback (none is `null`,
`undefined` or an array), and `_compact` is applied to the mapped array. -/
def _getCurrentOptions (controls : List Control) : List (Item SelectedOption) :=
  let currentOptions := controls.map currentOptionOf
  _compact (.array currentOptions)

/-! ## The matcher -/

/-- `Variants.prototype._getVariantFromOptions` (theme.js 553-576), with the
array returned by `_getCurrentOptions` passed in as `selectedValues`.
`found` starts as `false` (here `none`) and is overwritten by every variant
whose `matched` flag survives the inner loop; the result is `found || null`. -/
def _getVariantFromOptions (product : Product) (selectedValues : List SelectedOption) :
    Option Variant :=
  product.variants.foldl
    (fun found variant =>
      let matched := selectedValues.foldl
        (fun matched option =>
          if matched then strictEquals (variant.get option.index) option.value else matched)
        true
      if matched then some variant else found)
    none

/-- The variant equals the selection at every selected position: each entry of
the selection is strictly equal to the property of the variant that it names. -/
def matchesSelection (selectedValues : List SelectedOption) (variant : Variant) : Bool :=
  selectedValues.all (fun option => strictEquals (variant.get option.index) option.value)

/-! ## The notifier -/

/-- The four event types triggered on `$container`. -/
inductive EventType where
  | variantChange
  | variantImageChange
  | variantPriceChange
  | variantSKUChange
  deriving DecidableEq, Repr

/-- An event object `{type, variant}` passed to `$container.trigger`. -/
structure Event where
  type : EventType
  variant : Option Variant
  deriving DecidableEq, Repr

/-- The parts of `window.location` that `_updateHistoryState` reads or that
`history.replaceState` rewrites. -/
structure Location where
  protocol : String
  host : String
  pathname : String
  search : String
  hash : String
  deriving DecidableEq, Repr

/-- A `Variants` object together with the parts of the page it acts on.
`product`, `enableHistoryState` and `currentVariant` are the fields of `this`;
`masterSelect` is the value of the element `originalSelectorId` (`none` before
any write), `location` and `historyLength` are the browser URL and the number
of session-history entries, `hasReplaceState` says whether
`history.replaceState` exists, and `triggered` is the log of the events
triggered on `$container`, oldest first. -/
structure Variants where
  product : Product
  enableHistoryState : Bool
  currentVariant : Option Variant
  masterSelect : Option Nat
  location : Location
  historyLength : Nat
  hasReplaceState : Bool
  triggered : List Event
  deriving DecidableEq, Repr

/-- The exception raised by reading a property of `null`. -/
inductive JSError where
  | typeError
  deriving DecidableEq, Repr

/-- Result of a method: the state after a normal return, or the exception
together with the state reached when it was raised. -/
abbrev Completion := Except (JSError × Variants) Variants

/-- The state a call leaves behind, whether it returned or raised. -/
def Completion.state : Completion → Variants
  | .ok self => self
  | .error (_, self) => self

/-- Whether the call raised an exception. -/
def Completion.raised : Completion → Bool
  | .ok _ => false
  | .error _ => true

/-- The call `this.$container.trigger(event)`. -/
def trigger (self : Variants) (event : Event) : Variants :=
  { self with triggered := self.triggered ++ [event] }

/-- The constructor `Variants(options)` (theme.js 511-520): `currentVariant`
is the match for the selection the controls show at load time. -/
def Variants.new (product : Product) (enableHistoryState : Bool) (masterSelect : Option Nat)
    (location : Location) (historyLength : Nat) (hasReplaceState : Bool)
    (selectedValues : List SelectedOption) : Variants :=
  { product := product
    enableHistoryState := enableHistoryState
    currentVariant := _getVariantFromOptions product selectedValues
    masterSelect := masterSelect
    location := location
    historyLength := historyLength
    hasReplaceState := hasReplaceState
    triggered := [] }

/-- `Variants.prototype._updateMasterSelect` (theme.js 646-648). -/
def _updateMasterSelect (self : Variants) (variant : Variant) : Variants :=
  { self with masterSelect := some variant.id }

/-- `Variants.prototype._updateImages` (theme.js 601-613).  Reading
`this.currentVariant.featured_image` raises a `TypeError` when
`currentVariant` is `null`; `{}.src` is `undefined`, here `none`. -/
def _updateImages (self : Variants) (variant : Variant) : Completion :=
  let variantImage : Option String := variant.featured_image.map Image.src
  match self.currentVariant with
  | none => .error (.typeError, self)
  | some currentVariant =>
    let currentVariantImage : Option String := currentVariant.featured_image.map Image.src
    if variant.featured_image.isNone || variantImage == currentVariantImage then
      .ok self
    else
      .ok (trigger self ⟨.variantImageChange, some variant⟩)

/-- `Variants.prototype._updatePrice` (theme.js 615-624). -/
def _updatePrice (self : Variants) (variant : Variant) : Completion :=
  match self.currentVariant with
  | none => .error (.typeError, self)
  | some currentVariant =>
    if variant.price == currentVariant.price
        && variant.compare_at_price == currentVariant.compare_at_price then
      .ok self
    else
      .ok (trigger self ⟨.variantPriceChange, some variant⟩)

/-- `Variants.prototype._updateSKU` (theme.js 626-635). -/
def _updateSKU (self : Variants) (variant : Variant) : Completion :=
  match self.currentVariant with
  | none => .error (.typeError, self)
  | some currentVariant =>
    if variant.sku == currentVariant.sku then
      .ok self
    else
      .ok (trigger self ⟨.variantSKUChange, some variant⟩)

/-- `Variants.prototype._updateHistoryState` (theme.js 637-644), called with a
variant: `replaceState` rewrites the URL to
`protocol + "//" + host + pathname + "?variant=" + variant.id` and adds no
history entry. -/
def _updateHistoryState (self : Variants) (variant : Variant) : Variants :=
  if !self.hasReplaceState then
    self
  else
    { self with
      location :=
        { protocol := self.location.protocol
          host := self.location.host
          pathname := self.location.pathname
          search := "?variant=" ++ toString variant.id
          hash := "" } }

/-- `Variants.prototype._onSelectChange` (theme.js 578-599), with the array
that `_getCurrentOptions` returns during the call passed in as
`selectedValues`. -/
def _onSelectChange (self : Variants) (selectedValues : List SelectedOption) : Completion :=
  let variant := _getVariantFromOptions self.product selectedValues
  let self := trigger self ⟨.variantChange, variant⟩
  match variant with
  | none => .ok self
  | some variant => do
    let self := _updateMasterSelect self variant
    let self ← _updateImages self variant
    let self ← _updatePrice self variant
    let self ← _updateSKU self variant
    let self := { self with currentVariant := some variant }
    if self.enableHistoryState then
      return _updateHistoryState self variant
    else
      return self

/-- The events triggered between the state `before` and the state `after`. -/
def emitted (before after : Variants) : List Event :=
  after.triggered.drop before.triggered.length

/-- The state `self` with `events` appended to the log of triggered events. -/
def addEvents (self : Variants) (events : List Event) : Variants :=
  { self with triggered := self.triggered ++ events }

/-- What `_updateImages` triggers for `variant` when the current variant is
`current`. -/
def imageEvents (variant current : Variant) : List Event :=
  if variant.featured_image.isNone
      || variant.featured_image.map Image.src == current.featured_image.map Image.src
  then [] else [⟨.variantImageChange, some variant⟩]

/-- What `_updatePrice` triggers for `variant` when the current variant is
`current`. -/
def priceEvents (variant current : Variant) : List Event :=
  if variant.price == current.price && variant.compare_at_price == current.compare_at_price
  then [] else [⟨.variantPriceChange, some variant⟩]

/-- What `_updateSKU` triggers for `variant` when the current variant is
`current`. -/
def skuEvents (variant current : Variant) : List Event :=
  if variant.sku == current.sku then [] else [⟨.variantSKUChange, some variant⟩]

/-- The events of a call that finds `variant` while the current variant is
`current`, in the order of emission. -/
def eventsOnMatch (variant current : Variant) : List Event :=
  ⟨.variantChange, some variant⟩ ::
    (imageEvents variant current ++ priceEvents variant current ++ skuEvents variant current)

/-- The state after a call that finds `variant` while the current variant is
`current`. -/
def afterMatch (self : Variants) (variant current : Variant) : Variants :=
  let next : Variants :=
    { self with
      masterSelect := some variant.id
      currentVariant := some variant
      triggered := self.triggered ++ eventsOnMatch variant current }
  if self.enableHistoryState then _updateHistoryState next variant else next

/-! ## Currency helpers (`theme.Currency`, `slate.utils.defaultTo`) -/

/-- An argument of a JavaScript function that is a value of type `α` or one of
`undefined`, `null`, `NaN`. -/
inductive Arg (α : Type) where
  | undefined
  | null
  | nan
  | value (a : α)
  deriving DecidableEq, Repr

/-- `slate.utils.defaultTo` (theme.js 81-83):
`(value == null || value !== value) ? defaultValue : value`.  `value == null`
holds for `null` and `undefined`, `value !== value` for `NaN` only. -/
def defaultTo {α : Type} (value : Arg α) (defaultValue : α) : α :=
  match value with
  | .undefined => defaultValue
  | .null => defaultValue
  | .nan => defaultValue
  | .value a => a

/-- The argument `cents` of `formatMoney`: an integer number, `NaN`, a string,
`null` or `undefined`.  Numbers are IEEE 754 doubles; the embedding covers the
integers `n` that are doubles and have `|n| < 100 * 2 ^ 53`. -/
inductive Amount where
  | number (n : Int)
  | nan
  | string (s : String)
  | null
  | undefined
  deriving DecidableEq, Repr

/-- The result of converting a string to a number, as far as the embedding
follows it: an integer, `NaN`, or some other number (a fraction, an infinity). -/
inductive JSNumber where
  | integer (n : Int)
  | nan
  | other
  deriving DecidableEq, Repr

/-- What a call does: it returns a value, it raises an exception, or it leaves
the part of JavaScript arithmetic that the embedding covers. -/
inductive Outcome (α : Type) where
  | returns (a : α)
  | raises (error : JSError)
  | unmodelled
  deriving DecidableEq, Repr

/-- The class `\s` of a regular expression, which is also the white space
that the conversion of a string to a number trims. -/
def isSpace (ch : Char) : Bool :=
  ch.toNat == 0x09 || ch.toNat == 0x0A || ch.toNat == 0x0B || ch.toNat == 0x0C
    || ch.toNat == 0x0D || ch.toNat == 0x20 || ch.toNat == 0xA0 || ch.toNat == 0x1680
    || (0x2000 ≤ ch.toNat && ch.toNat ≤ 0x200A) || ch.toNat == 0x2028 || ch.toNat == 0x2029
    || ch.toNat == 0x202F || ch.toNat == 0x205F || ch.toNat == 0x3000 || ch.toNat == 0xFEFF

/-- The class `\w` of a regular expression: `[A-Za-z0-9_]`. -/
def isWord (ch : Char) : Bool :=
  ch.isAlphanum || ch == '_'

/-- The value of a string of decimal digits. -/
def digitsValue (digits : List Char) : Nat :=
  digits.foldl (fun value ch => 10 * value + (ch.toNat - '0'.toNat)) 0

/-- An exponent part `[eE][+-]?\d+`, or nothing. -/
def isExponentOrEmpty : List Char → Bool
  | [] => true
  | ch :: rest =>
    (ch == 'e' || ch == 'E') &&
      (match rest with
        | '+' :: digits => !digits.isEmpty && digits.all Char.isDigit
        | '-' :: digits => !digits.isEmpty && digits.all Char.isDigit
        | digits => !digits.isEmpty && digits.all Char.isDigit)

/-- An unsigned decimal literal of the string-to-number grammar: `Infinity`,
`\d+.\d*`, `.\d+` or `\d+`, each but the first with an optional exponent. -/
def isUnsignedDecimal (chars : List Char) : Bool :=
  chars == "Infinity".toList ||
    (let whole := chars.takeWhile Char.isDigit
     let afterWhole := chars.dropWhile Char.isDigit
     match afterWhole with
     | '.' :: rest =>
       (!whole.isEmpty || !(rest.takeWhile Char.isDigit).isEmpty)
         && isExponentOrEmpty (rest.dropWhile Char.isDigit)
     | _ => !whole.isEmpty && isExponentOrEmpty afterWhole)

/-- A binary, octal or hexadecimal integer literal `0b…`, `0o…`, `0x…`. -/
def isNonDecimalInteger : List Char → Bool
  | '0' :: radix :: digits =>
    !digits.isEmpty &&
      (((radix == 'b' || radix == 'B') && digits.all (fun ch => ch == '0' || ch == '1'))
        || ((radix == 'o' || radix == 'O') && digits.all (fun ch => '0' ≤ ch && ch ≤ '7'))
        || ((radix == 'x' || radix == 'X') && digits.all (fun ch =>
              ch.isDigit || ('a' ≤ ch && ch ≤ 'f') || ('A' ≤ ch && ch ≤ 'F'))))
  | _ => false

/-- The conversion of a string to a number (`isNaN(string)`, `string / 100.0`):
white space is trimmed; the empty string is `0`; an optionally signed string
of decimal digits is its value; any other numeric literal is a number that the
embedding does not follow; everything else is `NaN`. -/
def stringToNumber (chars : List Char) : JSNumber :=
  let trimmed := ((chars.dropWhile isSpace).reverse.dropWhile isSpace).reverse
  match trimmed with
  | [] => .integer 0
  | '-' :: rest =>
    if !rest.isEmpty && rest.all Char.isDigit then .integer (-(digitsValue rest : Int))
    else if isUnsignedDecimal rest then .other
    else .nan
  | '+' :: rest =>
    if !rest.isEmpty && rest.all Char.isDigit then .integer (digitsValue rest)
    else if isUnsignedDecimal rest then .other
    else .nan
  | _ =>
    if trimmed.all Char.isDigit then .integer (digitsValue trimmed)
    else if isUnsignedDecimal trimmed || isNonDecimalInteger trimmed then .other
    else .nan

/-- The quotient `numerator / denominator` rounded to the nearest integer,
ties to the even one. -/
def roundHalfEven (numerator denominator : Nat) : Nat :=
  let quotient := numerator / denominator
  let remainder := numerator % denominator
  if 2 * remainder < denominator then quotient
  else if denominator < 2 * remainder then quotient + 1
  else if quotient % 2 = 0 then quotient
  else quotient + 1

/-- Search for the least `shift`, from `shift` on, with
`100 * 2 ^ 52 ≤ c * 2 ^ shift`. -/
def binaryShift (c : Nat) : Nat → Nat → Nat
  | 0, shift => shift
  | fuel + 1, shift =>
    if 100 * 2 ^ 52 ≤ c * 2 ^ shift then shift else binaryShift c fuel (shift + 1)

/-- The double `c / 100.0` for a double `0 < c < 100 * 2 ^ 53`, as the pair
`(significand, shift)` of value `significand / 2 ^ shift`: the exact quotient
is scaled so that its integer part has 53 bits and is then rounded to the
nearest integer, ties to even (IEEE 754 division). -/
def divideBy100 (c : Nat) : Nat × Nat :=
  let shift := binaryShift c 60 0
  (roundHalfEven (c * 2 ^ shift) 100, shift)

/-- The integer `n` of `Number.prototype.toFixed(precision)` for the double
`significand / 2 ^ shift`: the one for which `n / 10 ^ precision` is closest
to the double, the larger one on a tie. -/
def toFixedInteger (double : Nat × Nat) (precision : Nat) : Nat :=
  (2 * 10 ^ precision * double.1 + 2 ^ double.2) / 2 ^ (double.2 + 1)

/-- The string that `toFixed(precision)` builds from the integer `n`: its
decimal digits, padded with zeros on the left to `precision + 1` digits, with
a `.` before the last `precision` digits when `precision` is not zero. -/
def toFixedDigits (n precision : Nat) : List Char :=
  let digits := Nat.toDigits 10 n
  if precision = 0 then digits
  else
    let padded := List.replicate (precision + 1 - digits.length) '0' ++ digits
    padded.take (padded.length - precision) ++ '.' :: padded.drop (padded.length - precision)

/-- Whether the integer `c` has at most 53 significant bits, so that it is a
double: it is at most `2 ^ 53`, or it is even and its half is a double. -/
def isDouble : Nat → Nat → Bool
  | 0, c => decide (c ≤ 2 ^ 53)
  | fuel + 1, c => decide (c ≤ 2 ^ 53) || (c % 2 == 0 && isDouble fuel (c / 2))

/-- `(number / 100.0).toFixed(precision)` for an integer number that is a
double and has `|number| < 100 * 2 ^ 53`; `none` outside that range. -/
def centsToFixed (number : Int) (precision : Nat) : Option (List Char) :=
  if !isDouble 7 number.natAbs || 100 * 2 ^ 53 ≤ number.natAbs then none
  else if number = 0 then some (toFixedDigits 0 precision)
  else
    let digits := toFixedDigits (toFixedInteger (divideBy100 number.natAbs) precision) precision
    some (if number < 0 then '-' :: digits else digits)

/-- The lookahead `(?=(\d\d\d)+(?!\d))`: the text starts with one or more
groups of three digits after which no digit follows. -/
def groupsOfThreeAhead : List Char → Bool
  | a :: b :: c :: rest =>
    a.isDigit && b.isDigit && c.isDigit &&
      ((match rest with
          | [] => true
          | next :: _ => !next.isDigit)
        || groupsOfThreeAhead rest)
  | _ => false

/-- `text.replace(/(\d)(?=(\d\d\d)+(?!\d))/g, '$1' + thousands)`: every digit
at which the lookahead succeeds is followed by `thousands`. -/
def insertThousands (thousands : List Char) : List Char → List Char
  | [] => []
  | ch :: rest =>
    if ch.isDigit && groupsOfThreeAhead rest then
      ch :: (thousands ++ insertThousands thousands rest)
    else
      ch :: insertThousands thousands rest

/-- The body of `formatWithDelimiters` after the test for `NaN` and `null`
(theme.js 359-365), applied to the string `number` that `toFixed` returned. -/
def delimit (number thousands decimal : List Char) : List Char :=
  let first := number.takeWhile (fun ch => ch != '.')
  let second : Option (List Char) :=
    match number.dropWhile (fun ch => ch != '.') with
    | [] => none
    | _ :: rest => some (rest.takeWhile (fun ch => ch != '.'))
  let dollarsAmount := insertThousands thousands first
  let centsAmount :=
    match second with
    | none => []
    | some [] => []
    | some digits => decimal ++ digits
  dollarsAmount ++ centsAmount

/-- `formatWithDelimiters` (theme.js 350-366).  The result is the number `0`
for a `NaN`, `null` or `undefined` amount and a string otherwise; it is
`none` when the amount is a number outside the range of `centsToFixed`. -/
def formatWithDelimiters (number : Amount) (precision : Arg Nat) (thousands : Arg String)
    (decimal : Arg String) : Option JSValue :=
  let precision := defaultTo precision 2
  let thousands := defaultTo thousands ","
  let decimal := defaultTo decimal "."
  let format (n : Int) : Option JSValue :=
    (centsToFixed n precision).map
      (fun fixed => .string (String.mk (delimit fixed thousands.toList decimal.toList)))
  match number with
  | .nan => some (.number 0)
  | .null => some (.number 0)
  | .undefined => some (.number 0)
  | .number n => format n
  | .string s =>
    match stringToNumber s.toList with
    | .nan => some (.number 0)
    | .integer n => format n
    | .other => none

/-- Try to match `/\{\{\s*(\w+)\s*\}\}/` at the start of the text: the
captured word and the text after the match. -/
def matchPlaceholderHere : List Char → Option (List Char × List Char)
  | '{' :: '{' :: rest =>
    let afterSpace := rest.dropWhile isSpace
    let word := afterSpace.takeWhile isWord
    match word, (afterSpace.dropWhile isWord).dropWhile isSpace with
    | _ :: _, '}' :: '}' :: after => some (word, after)
    | _, _ => none
  | _ => none

/-- The leftmost match of `placeholderRegex` in the text: the text before the
match, the captured word and the text after the match. -/
def findPlaceholder : List Char → Option (List Char × List Char × List Char)
  | [] => none
  | ch :: rest =>
    match matchPlaceholderHere (ch :: rest) with
    | some (word, after) => some ([], word, after)
    | none =>
      match findPlaceholder rest with
      | some (before, word, after) => some (ch :: before, word, after)
      | none => none

/-- `string.replace('.', '')`: the first `.` is deleted. -/
def removeFirstDot : List Char → List Char
  | [] => []
  | ch :: rest => if ch == '.' then rest else ch :: removeFirstDot rest

/-- The conversion of the value of `formatWithDelimiters` to the replacement
string.  No value contains a `$`, so the replacement is the string itself. -/
def replacementText : JSValue → List Char
  | .string s => s.toList
  | .number n => (toString n).toList
  | _ => []

/-- `theme.Currency.formatMoney` (theme.js 342-387).  `format` is `none` when
the argument is missing; `moneyFormat` is `'$'`.  Reading `[1]` of the `null`
that `match` returns for a template without placeholder raises a
`TypeError`. -/
def formatMoney (cents : Amount) (format : Option String) : Outcome String :=
  let cents : Amount :=
    match cents with
    | .string s => .string (String.mk (removeFirstDot s.toList))
    | other => other
  let moneyFormat := "$"
  let formatString :=
    match format with
    | none => moneyFormat
    | some text => if text.isEmpty then moneyFormat else text
  match findPlaceholder formatString.toList with
  | none => .raises .typeError
  | some (before, word, after) =>
    let value : Option JSValue :=
      if word == "amount".toList then
        formatWithDelimiters cents (.value 2) .undefined .undefined
      else if word == "amount_no_decimals".toList then
        formatWithDelimiters cents (.value 0) .undefined .undefined
      else if word == "amount_with_comma_separator".toList then
        formatWithDelimiters cents (.value 2) (.value ".") (.value ",")
      else if word == "amount_no_decimals_with_comma_separator".toList then
        formatWithDelimiters cents (.value 0) (.value ".") (.value ",")
      else if word == "amount_no_decimals_with_space_separator".toList then
        formatWithDelimiters cents (.value 0) (.value " ") .undefined
      else
        some (.string "")
    match value with
    | none => .unmodelled
    | some value => .returns (String.mk (before ++ replacementText value ++ after))

/-- The decimal digits `digits` with `separator` inserted every three digits
from the right: the last three digits are split off behind a separator as long
as more than three digits remain. -/
def groupFromRight (separator : List Char) : Nat → List Char → List Char
  | 0, digits => digits
  | fuel + 1, digits =>
    if digits.length ≤ 3 then digits
    else
      groupFromRight separator fuel (digits.take (digits.length - 3))
        ++ separator ++ digits.drop (digits.length - 3)

/-- What the specification says `formatMoney(c, "{{amount}}")` is: the decimal
digits of `c div 100` with `,` inserted every three digits from the right, then
`.` and the two digits of `c mod 100`. -/
def amountText (c : Nat) : String :=
  String.mk (groupFromRight [','] (Nat.toDigits 10 (c / 100)).length (Nat.toDigits 10 (c / 100))
    ++ ['.', Nat.digitChar (c % 100 / 10), Nat.digitChar (c % 100 % 10)])

/-- The five placeholder words that `formatMoney` recognises. -/
def recognisedModes : List (List Char) :=
  ["amount".toList, "amount_no_decimals".toList, "amount_with_comma_separator".toList,
    "amount_no_decimals_with_comma_separator".toList,
    "amount_no_decimals_with_space_separator".toList]

/-- The amount after the first statement of `formatMoney`: a string has lost
its first `.`. -/
def withoutFirstDot : Amount → Amount
  | .string s => .string (String.mk (removeFirstDot s.toList))
  | other => other

/-- The `value` that the `switch` of `formatMoney` computes for the captured
word. -/
def valueForMode (word : List Char) (cents : Amount) : Option JSValue :=
  if word == "amount".toList then
    formatWithDelimiters cents (.value 2) .undefined .undefined
  else if word == "amount_no_decimals".toList then
    formatWithDelimiters cents (.value 0) .undefined .undefined
  else if word == "amount_with_comma_separator".toList then
    formatWithDelimiters cents (.value 2) (.value ".") (.value ",")
  else if word == "amount_no_decimals_with_comma_separator".toList then
    formatWithDelimiters cents (.value 0) (.value ".") (.value ",")
  else if word == "amount_no_decimals_with_space_separator".toList then
    formatWithDelimiters cents (.value 0) (.value " ") .undefined
  else
    some (.string "")

/-- What the specification says a no-decimals mode renders for the amount `c`:
`c / 100` rounded to the nearest integer (a half is rounded up), with
`separator` inserted every three digits from the right. -/
def noDecimalsText (separator : List Char) (c : Nat) : String :=
  String.mk (groupFromRight separator (Nat.toDigits 10 ((c + 50) / 100)).length
    (Nat.toDigits 10 ((c + 50) / 100)))

/-- Every `,` becomes `.` and every `.` becomes `,`. -/
def exchangeCommaDot (ch : Char) : Char :=
  if ch == ',' then '.' else if ch == '.' then ',' else ch

/-- Every `,` becomes a space. -/
def commaToSpace (ch : Char) : Char :=
  if ch == ',' then ' ' else ch

/-- The string `text` with `change` applied to each of its characters. -/
def mapChars (change : Char → Char) (text : String) : String :=
  String.mk (text.toList.map change)

/-- The outcome of a call with `change` applied to the value it returns. -/
def Outcome.map {α β : Type} (change : α → β) : Outcome α → Outcome β
  | .returns a => .returns (change a)
  | .raises error => .raises error
  | .unmodelled => .unmodelled

/-! ## Example catalog -/

/-- Variant `(Red, S, id = 1, price = 1000)`. -/
def redS : Variant := ⟨1, ["Red", "S"], 1000, none, "", true, none⟩

/-- Variant `(Red, M, id = 2, price = 1200)`. -/
def redM : Variant := ⟨2, ["Red", "M"], 1200, none, "", true, none⟩

/-- The catalog `[(Red, S, id = 1), (Red, M, id = 2)]` over the options
`Color`, `Size`. -/
def twoReds : Product := ⟨["Color", "Size"], [redS, redM]⟩

/-- The selection `{Color = Red}`: the `Size` position is unspecified. -/
def colorRed : List SelectedOption := [⟨.string "Red", .option 1⟩]

/-- The selection `{Color = Red, Size = S}`. -/
def colorRedSizeS : List SelectedOption := [⟨.string "Red", .option 1⟩, ⟨.string "S", .option 2⟩]

/-- The selection `{Color = Red}` followed by an entry whose index `option3`
names no option of a two-option catalog. -/
def colorRedAndStray : List SelectedOption :=
  [⟨.string "Red", .option 1⟩, ⟨.string "x", .option 3⟩]

/-- The selection `{Color = Green, Size = S}`: the catalog has no such colour. -/
def colorGreenSizeS : List SelectedOption :=
  [⟨.string "Green", .option 1⟩, ⟨.string "S", .option 2⟩]

/-- The selection `{Color = Red, Size = M}`. -/
def colorRedSizeM : List SelectedOption := [⟨.string "Red", .option 1⟩, ⟨.string "M", .option 2⟩]

/-- A product page URL. -/
def shirtPage : Location := ⟨"https:", "shop.example", "/products/shirt", "", ""⟩

/-- Variant `(Blue, M, id = 4, price = 1300)`. -/
def blueM : Variant := ⟨4, ["Blue", "M"], 1300, none, "", true, none⟩

/-- The catalog `[(Red, S, id = 1), (Blue, M, id = 4)]`: the combinations
`(Red, M)` and `(Blue, S)` are not sold. -/
def redSBlueM : Product := ⟨["Color", "Size"], [redS, blueM]⟩

/-- A notifier on the catalog `redSBlueM` constructed while the controls show
`{Color = Red, Size = M}`: nothing matches, so `currentVariant` is `null`. -/
def loadedOnRedM : Variants := Variants.new redSBlueM false none shirtPage 1 true colorRedSizeM

/-- A notifier constructed while the controls show `{Color = Red, Size = S}`. -/
def loadedOnRedS : Variants := Variants.new twoReds true (some 1) shirtPage 1 true colorRedSizeS

/-- Variant `(Navy, id = 11)` with a featured image. -/
def navy : Variant := ⟨11, ["Navy"], 2500, some 3000, "CAP-N", true, some ⟨101, "//cdn/navy.jpg"⟩⟩

/-- Variant `(Sand, id = 12)` with another featured image and the same prices. -/
def sand : Variant := ⟨12, ["Sand"], 2500, some 3000, "CAP-S", true, some ⟨102, "//cdn/sand.jpg"⟩⟩

/-- A one-option catalog whose variants have featured images. -/
def caps : Product := ⟨["Colour"], [navy, sand]⟩

/-- The selection `{Colour = Sand}`. -/
def colourSand : List SelectedOption := [⟨.string "Sand", .option 1⟩]

/-- A notifier on the catalog `caps` constructed while the controls show
`{Colour = Navy}`. -/
def loadedOnNavy : Variants :=
  Variants.new caps false (some 11) shirtPage 1 true [⟨.string "Navy", .option 1⟩]

/-- A sequence of option-change events: `_onSelectChange` is called once for
each selection of `selections`, in order, each call starting in the state the
previous one left behind (also when that call raised). -/
def optionChanges (self : Variants) (selections : List (List SelectedOption)) : Variants :=
  selections.foldl (fun state selectedValues => (_onSelectChange state selectedValues).state) self

/-- Variant `(Blue, S, id = 3, price = 1100, available = false)`. -/
def blueS : Variant := ⟨3, ["Blue", "S"], 1100, none, "", false, none⟩

/-- The catalog `[(Red,S,id=1,price=1000), (Red,M,id=2,price=1200),
(Blue,S,id=3,price=1100,available=false)]`. -/
def threeShirts : Product := ⟨["Color", "Size"], [redS, redM, blueS]⟩

/-- The selection `{Color = Blue, Size = S}`. -/
def colorBlueSizeS : List SelectedOption :=
  [⟨.string "Blue", .option 1⟩, ⟨.string "S", .option 2⟩]

/-- A notifier on the catalog `threeShirts` whose current variant is `id = 1`. -/
def loadedOnShirt1 : Variants :=
  Variants.new threeShirts false (some 1) shirtPage 1 true colorRedSizeS

/-- A notifier like `loadedOnRedS`, with history-state integration enabled, in
a browser that has no `history.replaceState`. -/
def loadedWithoutReplaceState : Variants :=
  Variants.new twoReds true (some 1) shirtPage 1 false colorRedSizeS

/-- A notifier like `loadedOnRedS` with history-state integration disabled. -/
def loadedHistoryOff : Variants :=
  Variants.new twoReds false (some 1) shirtPage 1 true colorRedSizeS

/-- Variant `(Matte, id = 21)`. -/
def matte : Variant := ⟨21, ["Matte"], 500, some 700, "MUG", true, some ⟨9, "//cdn/mug.jpg"⟩⟩

/-- Variant `(Gloss, id = 22)`: price, compare-at price, sku and featured image
are those of `matte`. -/
def gloss : Variant := ⟨22, ["Gloss"], 500, some 700, "MUG", true, some ⟨9, "//cdn/mug.jpg"⟩⟩

/-- A catalog of two variants that share all displayed attributes. -/
def mugs : Product := ⟨["Finish"], [matte, gloss]⟩

/-- A notifier on the catalog `mugs` whose current variant is `matte`. -/
def loadedOnMatte : Variants :=
  Variants.new mugs false (some 21) shirtPage 1 true [⟨.string "Matte", .option 1⟩]

/-- The selection `{Finish = Gloss}`. -/
def finishGloss : List SelectedOption := [⟨.string "Gloss", .option 1⟩]

/-! ## Properties of the matcher -/

/-- The inner loop of `_getVariantFromOptions` computes the conjunction of the
comparisons, starting from the flag it is given. -/
theorem inner_loop_eq (variant : Variant) (selectedValues : List SelectedOption) (flag : Bool) :
    selectedValues.foldl
      (fun matched option =>
        if matched then strictEquals (variant.get option.index) option.value else matched)
      flag = (flag && matchesSelection selectedValues variant) := by
  induction selectedValues generalizing flag with
  | nil => simp [matchesSelection]
  | cons option rest ih =>
    simp only [List.foldl_cons, ih, matchesSelection, List.all_cons]
    cases flag <;> simp

/-- The outer loop keeps the last variant that satisfies the test. -/
theorem outer_loop_eq (test : Variant → Bool) (variants : List Variant) (found : Option Variant) :
    variants.foldl (fun found variant => if test variant then some variant else found) found
      = ((variants.filter test).getLast?).or found := by
  induction variants using List.reverseRecOn with
  | nil => simp
  | append_singleton rest variant ih =>
    rw [List.foldl_append, ih, List.filter_append]
    by_cases h : test variant = true <;> simp [h, List.filter_cons]

/-- The matcher returns the last element of the catalog that matches. -/
theorem getVariantFromOptions_eq (product : Product) (selectedValues : List SelectedOption) :
    _getVariantFromOptions product selectedValues
      = (product.variants.filter (matchesSelection selectedValues)).getLast? := by
  unfold _getVariantFromOptions
  have h := outer_loop_eq (matchesSelection selectedValues) product.variants none
  simp only [Option.or_none] at h
  rw [← h]
  congr 1
  funext found variant
  simp [inner_loop_eq]

/-- A result of the matcher is a variant of the catalog that matches. -/
theorem getVariantFromOptions_some (product : Product) (selectedValues : List SelectedOption)
    (variant : Variant) (h : _getVariantFromOptions product selectedValues = some variant) :
    variant ∈ product.variants ∧ matchesSelection selectedValues variant = true := by
  rw [getVariantFromOptions_eq] at h
  have hmem := List.mem_of_getLast?_eq_some h
  exact List.mem_filter.mp hmem

/-- The matcher returns `null` exactly when no variant of the catalog matches. -/
theorem getVariantFromOptions_none (product : Product) (selectedValues : List SelectedOption) :
    _getVariantFromOptions product selectedValues = none
      ↔ ∀ variant ∈ product.variants, matchesSelection selectedValues variant = false := by
  rw [getVariantFromOptions_eq, List.getLast?_eq_none_iff, List.filter_eq_nil_iff]
  simp

/-- Strict equality implies equality of the two values. -/
theorem eq_of_strictEquals {a b : JSValue} (h : strictEquals a b = true) : a = b := by
  cases a <;> cases b <;> simp_all [strictEquals]

/-- A value other than `undefined` is not strictly equal to `undefined`. -/
theorem strictEquals_undefined {value : JSValue} (h : value ≠ .undefined) :
    strictEquals .undefined value = false := by
  cases value <;> simp_all [strictEquals]

/-- C1 (as amended): for every catalog and every selection, whether or not it
leaves option positions unspecified, `_getVariantFromOptions` returns the LAST
variant in catalog order that equals the selection at every specified position
(the scan runs through the whole catalog and every match overwrites the
previous one), or `null` if no variant does. -/
theorem C1_returns_last_match (product : Product) (selectedValues : List SelectedOption) :
    _getVariantFromOptions product selectedValues
      = (product.variants.filter (matchesSelection selectedValues)).getLast? :=
  getVariantFromOptions_eq product selectedValues

/-- C1 (as stated) fails: in the catalog `[(Red,S,id=1), (Red,M,id=2)]` the
selection `{Color = Red}` leaves `Size` unspecified, the first variant in
catalog order that matches is `id = 1`, and the matcher returns `id = 2`. -/
theorem C1_first_match_counterexample :
    (∀ option ∈ colorRed, option.index ≠ .option 2)
      ∧ twoReds.variants.find? (matchesSelection colorRed) = some redS
      ∧ _getVariantFromOptions twoReds colorRed = some redM
      ∧ redM ≠ redS := by
  decide

/-- C2: in a catalog whose variants have one value per option and pairwise
distinct option tuples, for a selection that gives a value for every option
position, a variant of the catalog that equals the selection at every position
is the only such variant and is the result of `_getVariantFromOptions`; when
there is none the result is `null`. -/
theorem C2_full_selection_unique (product : Product) (selectedValues : List SelectedOption)
    (hshape : ∀ variant ∈ product.variants, variant.options.length = product.options.length)
    (hdistinct : product.variants.Pairwise (fun a b => a.options ≠ b.options))
    (hfull : ∀ k, k < product.options.length →
      ∃ option ∈ selectedValues, option.index = .option (k + 1)) :
    (∀ variant ∈ product.variants, matchesSelection selectedValues variant = true →
        _getVariantFromOptions product selectedValues = some variant
          ∧ ∀ other ∈ product.variants, matchesSelection selectedValues other = true →
              other = variant)
      ∧ ((∀ variant ∈ product.variants, matchesSelection selectedValues variant = false) →
          _getVariantFromOptions product selectedValues = none) := by
  have huniq : ∀ a ∈ product.variants, ∀ b ∈ product.variants,
      matchesSelection selectedValues a = true → matchesSelection selectedValues b = true →
      a = b := by
    intro a ha b hb hma hmb
    by_contra hne
    have hsymm : Symmetric (fun a b : Variant => a.options ≠ b.options) :=
      fun _ _ h => Ne.symm h
    apply hdistinct.forall hsymm ha hb hne
    apply List.ext_get?
    intro k
    by_cases hk : k < product.options.length
    · obtain ⟨option, hmem, hidx⟩ := hfull k hk
      have hva := eq_of_strictEquals (List.all_eq_true.mp hma option hmem)
      have hvb := eq_of_strictEquals (List.all_eq_true.mp hmb option hmem)
      have hab : a.get (.option (k + 1)) = b.get (.option (k + 1)) := by
        rw [← hidx, hva, hvb]
      have hka : k < a.options.length := by rw [hshape a ha]; exact hk
      have hkb : k < b.options.length := by rw [hshape b hb]; exact hk
      simp only [Variant.get, List.get?_eq_get hka, List.get?_eq_get hkb] at hab
      rw [List.get?_eq_get hka, List.get?_eq_get hkb]
      injection hab with hs
      rw [hs]
    · have hka : a.options.length ≤ k := by rw [hshape a ha]; omega
      have hkb : b.options.length ≤ k := by rw [hshape b hb]; omega
      rw [List.get?_eq_none.mpr hka, List.get?_eq_none.mpr hkb]
  refine ⟨?_, fun hnone => (getVariantFromOptions_none product selectedValues).mpr hnone⟩
  intro variant hmem hmatch
  refine ⟨?_, fun other ho hmo => huniq other ho variant hmem hmo hmatch⟩
  cases hres : _getVariantFromOptions product selectedValues with
  | none =>
    have := (getVariantFromOptions_none product selectedValues).mp hres variant hmem
    rw [hmatch] at this
    exact absurd this (by decide)
  | some found =>
    obtain ⟨hf, hfm⟩ := getVariantFromOptions_some product selectedValues found hres
    rw [huniq found hf variant hmem hfm hmatch]

/-- Witness of C2: the catalog `[(Red,S,id=1), (Red,M,id=2)]` and the selection
`{Color = Red, Size = S}`. -/
theorem C2_full_selection_unique_witness :
    _getVariantFromOptions twoReds colorRedSizeS = some redS
      ∧ ∀ other ∈ twoReds.variants, matchesSelection colorRedSizeS other = true →
          other = redS :=
  (C2_full_selection_unique twoReds colorRedSizeS (by decide) (by decide) (by decide)).1
    redS (by decide) (by decide)

/-- C3: `_getVariantFromOptions` returns `null` if and only if no variant of
the catalog equals the selection at every selected position; a non-null result
is a variant of the catalog that equals the selection at every selected
position; and whether a variant matches depends only on its values at the
selected positions. -/
theorem C3_null_iff_no_match (product : Product) (selectedValues : List SelectedOption) :
    (_getVariantFromOptions product selectedValues = none
        ↔ ∀ variant ∈ product.variants, matchesSelection selectedValues variant = false)
      ∧ (∀ variant, _getVariantFromOptions product selectedValues = some variant →
          variant ∈ product.variants ∧ matchesSelection selectedValues variant = true)
      ∧ (∀ a b : Variant, (∀ option ∈ selectedValues, a.get option.index = b.get option.index) →
          matchesSelection selectedValues a = matchesSelection selectedValues b) := by
  refine ⟨getVariantFromOptions_none product selectedValues,
    getVariantFromOptions_some product selectedValues, ?_⟩
  intro a b hab
  unfold matchesSelection
  induction selectedValues with
  | nil => rfl
  | cons option rest ih =>
    simp only [List.all_cons]
    rw [hab option (List.mem_cons_self _ _), ih (fun o ho => hab o (List.mem_cons_of_mem _ ho))]

/-- C4 (as amended): for an empty selection `_getVariantFromOptions` returns
the LAST variant of the catalog, and `null` for an empty catalog. -/
theorem C4_empty_selection_last (product : Product) :
    _getVariantFromOptions product [] = product.variants.getLast? := by
  rw [getVariantFromOptions_eq]
  congr 1
  apply List.filter_eq_self.mpr
  intro variant _
  rfl

/-- C4 (as stated) fails: for the empty selection and the catalog
`[(Red,S,id=1), (Red,M,id=2)]` the first variant is `id = 1` and the matcher
returns `id = 2`. -/
theorem C4_first_variant_counterexample :
    twoReds.variants.head? = some redS
      ∧ _getVariantFromOptions twoReds [] = some redM
      ∧ redM ≠ redS := by
  decide

/-- C5 (as amended): a selection entry whose index names no property of any
variant is not ignored: the property read is `undefined`, so when the value of
the entry is not `undefined` no variant matches and `_getVariantFromOptions`
returns `null`. -/
theorem C5_stray_index_gives_null (product : Product) (selectedValues : List SelectedOption)
    (stray : SelectedOption) (hmem : stray ∈ selectedValues)
    (hout : ∀ variant ∈ product.variants, variant.get stray.index = .undefined)
    (hvalue : stray.value ≠ .undefined) :
    _getVariantFromOptions product selectedValues = none := by
  rw [getVariantFromOptions_none]
  intro variant hv
  unfold matchesSelection
  rw [List.all_eq_false]
  refine ⟨stray, hmem, ?_⟩
  rw [hout variant hv, strictEquals_undefined hvalue]
  decide

/-- Witness of C5 (as amended): the entry `(x, option3)` in a two-option
catalog. -/
theorem C5_stray_index_gives_null_witness :
    _getVariantFromOptions twoReds colorRedAndStray = none :=
  C5_stray_index_gives_null twoReds colorRedAndStray ⟨.string "x", .option 3⟩
    (by decide) (by decide) (by decide)

/-- C5 (as stated) fails: in the two-option catalog `[(Red,S,id=1),
(Red,M,id=2)]` the entry `(x, option3)` lies outside the option positions, the
selection with it yields `null`, and the selection without it yields `id = 2`. -/
theorem C5_stray_index_counterexample :
    twoReds.options.length < 3
      ∧ colorRedAndStray.erase ⟨.string "x", .option 3⟩ = colorRed
      ∧ _getVariantFromOptions twoReds colorRedAndStray = none
      ∧ _getVariantFromOptions twoReds colorRed = some redM := by
  decide

/-! ## Properties of the notifier -/

/-- A normal return is not an exception that is then handled: binding it runs
the rest of the method. -/
theorem bind_ok (self : Variants) (rest : Variants → Completion) :
    ((Except.ok self : Completion) >>= rest) = rest self := rfl

/-- Triggering one event appends it to the log. -/
theorem trigger_eq_addEvents (self : Variants) (event : Event) :
    trigger self event = addEvents self [event] := rfl

/-- Appending no event leaves the state as it is. -/
theorem addEvents_nil (self : Variants) : addEvents self [] = self := by
  cases self
  simp [addEvents]

/-- Appending events twice appends their concatenation. -/
theorem addEvents_addEvents (self : Variants) (first second : List Event) :
    addEvents (addEvents self first) second = addEvents self (first ++ second) := by
  simp [addEvents, List.append_assoc]

/-- `_updateImages` with a current variant returns normally and appends
`imageEvents`. -/
theorem updateImages_of_current (self : Variants) (variant current : Variant)
    (hcurrent : self.currentVariant = some current) :
    _updateImages self variant = .ok (addEvents self (imageEvents variant current)) := by
  simp only [_updateImages, hcurrent, imageEvents]
  split_ifs
  · rw [addEvents_nil]
  · rfl

/-- `_updatePrice` with a current variant returns normally and appends
`priceEvents`. -/
theorem updatePrice_of_current (self : Variants) (variant current : Variant)
    (hcurrent : self.currentVariant = some current) :
    _updatePrice self variant = .ok (addEvents self (priceEvents variant current)) := by
  simp only [_updatePrice, hcurrent, priceEvents]
  split_ifs
  · rw [addEvents_nil]
  · rfl

/-- `_updateSKU` with a current variant returns normally and appends
`skuEvents`. -/
theorem updateSKU_of_current (self : Variants) (variant current : Variant)
    (hcurrent : self.currentVariant = some current) :
    _updateSKU self variant = .ok (addEvents self (skuEvents variant current)) := by
  simp only [_updateSKU, hcurrent, skuEvents]
  split_ifs
  · rw [addEvents_nil]
  · rfl

/-- A call that finds a variant while a current variant is set returns
normally in the state `afterMatch`. -/
theorem onSelectChange_match (self : Variants) (selectedValues : List SelectedOption)
    (variant current : Variant)
    (hvariant : _getVariantFromOptions self.product selectedValues = some variant)
    (hcurrent : self.currentVariant = some current) :
    _onSelectChange self selectedValues = .ok (afterMatch self variant current) := by
  simp only [_onSelectChange, hvariant]
  rw [updateImages_of_current _ variant current
    (show (_updateMasterSelect (trigger self ⟨.variantChange, some variant⟩) variant).currentVariant
      = some current from hcurrent), bind_ok]
  rw [updatePrice_of_current _ variant current
    (show (addEvents (_updateMasterSelect (trigger self ⟨.variantChange, some variant⟩) variant)
      (imageEvents variant current)).currentVariant = some current from hcurrent), bind_ok]
  rw [updateSKU_of_current _ variant current
    (show (addEvents (addEvents
      (_updateMasterSelect (trigger self ⟨.variantChange, some variant⟩) variant)
      (imageEvents variant current)) (priceEvents variant current)).currentVariant
      = some current from hcurrent), bind_ok]
  cases hhistory : self.enableHistoryState <;>
    simp [afterMatch, eventsOnMatch, addEvents, _updateMasterSelect, trigger, hhistory, pure,
      Except.pure, List.append_assoc]

/-- A call that finds no variant returns normally after the one event. -/
theorem onSelectChange_no_match (self : Variants) (selectedValues : List SelectedOption)
    (hvariant : _getVariantFromOptions self.product selectedValues = none) :
    _onSelectChange self selectedValues = .ok (trigger self ⟨.variantChange, none⟩) := by
  simp only [_onSelectChange, hvariant]

/-- A call that finds a variant while `currentVariant` is `null` raises a
`TypeError` in `_updateImages`, after the event and the write to the master
select. -/
theorem onSelectChange_null_current (self : Variants) (selectedValues : List SelectedOption)
    (variant : Variant)
    (hvariant : _getVariantFromOptions self.product selectedValues = some variant)
    (hcurrent : self.currentVariant = none) :
    _onSelectChange self selectedValues
      = .error (.typeError,
          _updateMasterSelect (trigger self ⟨.variantChange, some variant⟩) variant) := by
  simp only [_onSelectChange, hvariant]
  have h : _updateImages
      (_updateMasterSelect (trigger self ⟨.variantChange, some variant⟩) variant) variant
      = .error (.typeError,
          _updateMasterSelect (trigger self ⟨.variantChange, some variant⟩) variant) := by
    have hc : (_updateMasterSelect (trigger self ⟨.variantChange, some variant⟩)
        variant).currentVariant = none := hcurrent
    simp only [_updateImages, hc]
  rw [h]
  rfl

/-- The log after a match is the old log followed by `eventsOnMatch`. -/
theorem afterMatch_triggered (self : Variants) (variant current : Variant) :
    (afterMatch self variant current).triggered
      = self.triggered ++ eventsOnMatch variant current := by
  simp only [afterMatch, _updateHistoryState]
  cases self.enableHistoryState <;> cases self.hasReplaceState <;> rfl

/-- The events of a call whose final log is the initial log followed by
`events` are `events`. -/
theorem emitted_of_append (before after : Variants) (events : List Event)
    (h : after.triggered = before.triggered ++ events) : emitted before after = events := by
  simp [emitted, h]

/-- None of the three difference events is a `variantChange`. -/
theorem difference_events_type (variant current : Variant) :
    ∀ event ∈ imageEvents variant current ++ priceEvents variant current
        ++ skuEvents variant current, event.type ≠ .variantChange := by
  intro event hmem
  simp only [List.mem_append] at hmem
  rcases hmem with (h | h) | h
  · unfold imageEvents at h
    split_ifs at h <;> simp_all
  · unfold priceEvents at h
    split_ifs at h <;> simp_all
  · unfold skuEvents at h
    split_ifs at h <;> simp_all

/-- C6 (the code fails it): on the catalog `[(Red,S,id=1), (Blue,M,id=4)]` the
notifier constructed while the controls show `{Color = Red, Size = M}` has
`currentVariant = null`; when the selection then becomes `{Color = Red,
Size = S}`, which matches `id = 1`, `_onSelectChange` raises a `TypeError` (in
`_updateImages`, reading `this.currentVariant.featured_image`) after triggering
`variantChange` and writing the master select, and `currentVariant` stays
`null`. -/
theorem C6_type_error_on_null_current :
    loadedOnRedM.currentVariant = none
      ∧ _getVariantFromOptions loadedOnRedM.product colorRedSizeS = some redS
      ∧ (_onSelectChange loadedOnRedM colorRedSizeS).raised = true
      ∧ (_onSelectChange loadedOnRedM colorRedSizeS).state
          = { loadedOnRedM with
              masterSelect := some 1
              triggered := [⟨.variantChange, some redS⟩] } := by
  decide

/-- C7: every call of `_onSelectChange` triggers `variantChange` first, with
the result of `_getVariantFromOptions` for the current selection as its
variant (`null` when nothing matches), and no later event of the call is a
`variantChange`. -/
theorem C7_variantChange_first_and_once (self : Variants)
    (selectedValues : List SelectedOption) :
    ∃ rest : List Event,
      emitted self (_onSelectChange self selectedValues).state
          = ⟨.variantChange, _getVariantFromOptions self.product selectedValues⟩ :: rest
        ∧ ∀ event ∈ rest, event.type ≠ .variantChange := by
  cases hvariant : _getVariantFromOptions self.product selectedValues with
  | none =>
    refine ⟨[], ?_, by simp⟩
    rw [onSelectChange_no_match self selectedValues hvariant]
    exact emitted_of_append _ _ _ rfl
  | some variant =>
    cases hcurrent : self.currentVariant with
    | none =>
      refine ⟨[], ?_, by simp⟩
      rw [onSelectChange_null_current self selectedValues variant hvariant hcurrent]
      exact emitted_of_append _ _ _ rfl
    | some current =>
      refine ⟨imageEvents variant current ++ priceEvents variant current
        ++ skuEvents variant current, ?_, difference_events_type variant current⟩
      rw [onSelectChange_match self selectedValues variant current hvariant hcurrent]
      exact emitted_of_append _ _ _ (afterMatch_triggered self variant current)

/-- C8: when the selection matches no variant, `_onSelectChange` returns
normally, triggers only `variantChange` with variant `null`, and leaves
`currentVariant`, the value of the master select, the URL and the history
unchanged. -/
theorem C8_no_match_only_variantChange (self : Variants)
    (selectedValues : List SelectedOption)
    (hnone : _getVariantFromOptions self.product selectedValues = none) :
    (_onSelectChange self selectedValues).raised = false
      ∧ emitted self (_onSelectChange self selectedValues).state = [⟨.variantChange, none⟩]
      ∧ (_onSelectChange self selectedValues).state.currentVariant = self.currentVariant
      ∧ (_onSelectChange self selectedValues).state.masterSelect = self.masterSelect
      ∧ (_onSelectChange self selectedValues).state.location = self.location
      ∧ (_onSelectChange self selectedValues).state.historyLength = self.historyLength := by
  rw [onSelectChange_no_match self selectedValues hnone]
  exact ⟨rfl, emitted_of_append _ _ _ rfl, rfl, rfl, rfl, rfl⟩

/-- Witness of C8: the current variant is `id = 1` and the selection becomes
`{Color = Green, Size = S}`. -/
theorem C8_no_match_only_variantChange_witness :
    (_onSelectChange loadedOnRedS colorGreenSizeS).raised = false
      ∧ emitted loadedOnRedS (_onSelectChange loadedOnRedS colorGreenSizeS).state
          = [⟨.variantChange, none⟩]
      ∧ (_onSelectChange loadedOnRedS colorGreenSizeS).state.currentVariant
          = loadedOnRedS.currentVariant
      ∧ (_onSelectChange loadedOnRedS colorGreenSizeS).state.masterSelect
          = loadedOnRedS.masterSelect
      ∧ (_onSelectChange loadedOnRedS colorGreenSizeS).state.location = loadedOnRedS.location
      ∧ (_onSelectChange loadedOnRedS colorGreenSizeS).state.historyLength
          = loadedOnRedS.historyLength :=
  C8_no_match_only_variantChange loadedOnRedS colorGreenSizeS (by decide)

/-- C9: when the selection matches variant `variant` and the current variant is
`current`, `_onSelectChange` returns normally and triggers `variantPriceChange`
if and only if `variant.price` differs from `current.price` or
`variant.compare_at_price` differs from `current.compare_at_price`. -/
theorem C9_price_event_iff (self : Variants) (selectedValues : List SelectedOption)
    (variant current : Variant)
    (hvariant : _getVariantFromOptions self.product selectedValues = some variant)
    (hcurrent : self.currentVariant = some current) :
    (_onSelectChange self selectedValues).raised = false
      ∧ ((∃ event ∈ emitted self (_onSelectChange self selectedValues).state,
            event.type = .variantPriceChange)
          ↔ (variant.price ≠ current.price
              ∨ variant.compare_at_price ≠ current.compare_at_price)) := by
  rw [onSelectChange_match self selectedValues variant current hvariant hcurrent]
  refine ⟨rfl, ?_⟩
  rw [show emitted self (Completion.state (.ok (afterMatch self variant current)))
      = eventsOnMatch variant current from
    emitted_of_append _ _ _ (afterMatch_triggered self variant current)]
  unfold eventsOnMatch imageEvents priceEvents skuEvents
  by_cases hprice : variant.price = current.price
  · by_cases hcompare : variant.compare_at_price = current.compare_at_price
    · split_ifs <;> simp_all
    · split_ifs <;> simp_all
  · split_ifs <;> simp_all

/-- Witness of C9: the current variant is `id = 1` (price 1000) and the
selection becomes `{Color = Red, Size = M}` (price 1200). -/
theorem C9_price_event_iff_witness :
    (_onSelectChange loadedOnRedS colorRedSizeM).raised = false
      ∧ ((∃ event ∈ emitted loadedOnRedS (_onSelectChange loadedOnRedS colorRedSizeM).state,
            event.type = .variantPriceChange)
          ↔ (redM.price ≠ redS.price ∨ redM.compare_at_price ≠ redS.compare_at_price)) :=
  C9_price_event_iff loadedOnRedS colorRedSizeM redM redS (by decide) (by decide)

/-- C10: when the selection matches variant `variant` and the current variant
is `current`, `_onSelectChange` returns normally and triggers
`variantImageChange` if and only if `variant` has a featured image and the
`src` of that image differs from the `src` of the featured image of `current`
(which is absent when `current` has no featured image). -/
theorem C10_image_event_iff (self : Variants) (selectedValues : List SelectedOption)
    (variant current : Variant)
    (hvariant : _getVariantFromOptions self.product selectedValues = some variant)
    (hcurrent : self.currentVariant = some current) :
    (_onSelectChange self selectedValues).raised = false
      ∧ ((∃ event ∈ emitted self (_onSelectChange self selectedValues).state,
            event.type = .variantImageChange)
          ↔ ∃ image, variant.featured_image = some image
              ∧ some image.src ≠ current.featured_image.map Image.src) := by
  rw [onSelectChange_match self selectedValues variant current hvariant hcurrent]
  refine ⟨rfl, ?_⟩
  rw [show emitted self (Completion.state (.ok (afterMatch self variant current)))
      = eventsOnMatch variant current from
    emitted_of_append _ _ _ (afterMatch_triggered self variant current)]
  unfold eventsOnMatch imageEvents priceEvents skuEvents
  cases himage : variant.featured_image with
  | none => split_ifs <;> simp_all
  | some image =>
    by_cases hsrc : some image.src = current.featured_image.map Image.src
    · split_ifs <;> simp_all
    · split_ifs <;> simp_all

/-- Witness of C10: the current variant is `Navy` and the selection becomes
`{Colour = Sand}`, whose featured image has another `src`. -/
theorem C10_image_event_iff_witness :
    (_onSelectChange loadedOnNavy colourSand).raised = false
      ∧ ((∃ event ∈ emitted loadedOnNavy (_onSelectChange loadedOnNavy colourSand).state,
            event.type = .variantImageChange)
          ↔ ∃ image, sand.featured_image = some image
              ∧ some image.src ≠ navy.featured_image.map Image.src) :=
  C10_image_event_iff loadedOnNavy colourSand sand navy (by decide) (by decide)

/-- The events of a call whose final state is `afterMatch`. -/
theorem emitted_afterMatch (self : Variants) (variant current : Variant) :
    emitted self (afterMatch self variant current) = eventsOnMatch variant current :=
  emitted_of_append _ _ _ (afterMatch_triggered self variant current)

/-- Fields of `this` and of the page after a match. -/
theorem afterMatch_fields (self : Variants) (variant current : Variant) :
    (afterMatch self variant current).product = self.product
      ∧ (afterMatch self variant current).currentVariant = some variant
      ∧ (afterMatch self variant current).masterSelect = some variant.id
      ∧ (afterMatch self variant current).enableHistoryState = self.enableHistoryState
      ∧ (afterMatch self variant current).historyLength = self.historyLength := by
  simp only [afterMatch, _updateHistoryState]
  cases self.enableHistoryState <;> cases self.hasReplaceState <;> exact ⟨rfl, rfl, rfl, rfl, rfl⟩

/-- No call of `_onSelectChange` changes `product`. -/
theorem onSelectChange_product (self : Variants) (selectedValues : List SelectedOption) :
    (_onSelectChange self selectedValues).state.product = self.product := by
  cases hvariant : _getVariantFromOptions self.product selectedValues with
  | none =>
    rw [onSelectChange_no_match self selectedValues hvariant]
    rfl
  | some variant =>
    cases hcurrent : self.currentVariant with
    | none =>
      rw [onSelectChange_null_current self selectedValues variant hvariant hcurrent]
      rfl
    | some current =>
      rw [onSelectChange_match self selectedValues variant current hvariant hcurrent]
      exact (afterMatch_fields self variant current).1

/-- A variant compared with itself triggers none of the difference events. -/
theorem eventsOnMatch_self (variant : Variant) :
    eventsOnMatch variant variant = [⟨.variantChange, some variant⟩] := by
  simp [eventsOnMatch, imageEvents, priceEvents, skuEvents]

/-- C11: when the selection matches variant `variant` and the current variant
is `current`, `_onSelectChange` returns normally and triggers
`variantSKUChange` if and only if `variant.sku` differs from `current.sku`. -/
theorem C11_sku_event_iff (self : Variants) (selectedValues : List SelectedOption)
    (variant current : Variant)
    (hvariant : _getVariantFromOptions self.product selectedValues = some variant)
    (hcurrent : self.currentVariant = some current) :
    (_onSelectChange self selectedValues).raised = false
      ∧ ((∃ event ∈ emitted self (_onSelectChange self selectedValues).state,
            event.type = .variantSKUChange)
          ↔ variant.sku ≠ current.sku) := by
  rw [onSelectChange_match self selectedValues variant current hvariant hcurrent]
  refine ⟨rfl, ?_⟩
  rw [show emitted self (Completion.state (.ok (afterMatch self variant current)))
      = eventsOnMatch variant current from emitted_afterMatch self variant current]
  unfold eventsOnMatch imageEvents priceEvents skuEvents
  by_cases hsku : variant.sku = current.sku
  · split_ifs <;> simp_all
  · split_ifs <;> simp_all

/-- Witness of C11: the current variant is `Navy` (sku `CAP-N`) and the
selection becomes `{Colour = Sand}` (sku `CAP-S`). -/
theorem C11_sku_event_iff_witness :
    (_onSelectChange loadedOnNavy colourSand).raised = false
      ∧ ((∃ event ∈ emitted loadedOnNavy (_onSelectChange loadedOnNavy colourSand).state,
            event.type = .variantSKUChange)
          ↔ sand.sku ≠ navy.sku) :=
  C11_sku_event_iff loadedOnNavy colourSand sand navy (by decide) (by decide)

/-- C12: for every call of `_onSelectChange`, the types of the events it
triggers, in order, form a subsequence of `[variantChange, variantImageChange,
variantPriceChange, variantSKUChange]`: each kind at most once and in that
order. -/
theorem C12_event_order (self : Variants) (selectedValues : List SelectedOption) :
    ((emitted self (_onSelectChange self selectedValues).state).map Event.type).Sublist
      [.variantChange, .variantImageChange, .variantPriceChange, .variantSKUChange] := by
  cases hvariant : _getVariantFromOptions self.product selectedValues with
  | none =>
    rw [onSelectChange_no_match self selectedValues hvariant,
      show emitted self (Completion.state (.ok (trigger self ⟨.variantChange, none⟩)))
        = [⟨.variantChange, none⟩] from emitted_of_append _ _ _ rfl]
    decide
  | some variant =>
    cases hcurrent : self.currentVariant with
    | none =>
      rw [onSelectChange_null_current self selectedValues variant hvariant hcurrent,
        show emitted self (Completion.state (.error (.typeError,
            _updateMasterSelect (trigger self ⟨.variantChange, some variant⟩) variant)))
          = [⟨.variantChange, some variant⟩] from emitted_of_append _ _ _ rfl]
      simp only [List.map]
      decide
    | some current =>
      rw [onSelectChange_match self selectedValues variant current hvariant hcurrent,
        show emitted self (Completion.state (.ok (afterMatch self variant current)))
          = eventsOnMatch variant current from emitted_afterMatch self variant current]
      unfold eventsOnMatch imageEvents priceEvents skuEvents
      split_ifs <;> simp only [List.map, List.append_nil, List.nil_append,
        List.cons_append] <;> decide

/-- The first event of every call is the `variantChange` that carries the
result of the matcher. -/
theorem emitted_head (self : Variants) (selectedValues : List SelectedOption) :
    ∃ rest : List Event, emitted self (_onSelectChange self selectedValues).state
      = ⟨.variantChange, _getVariantFromOptions self.product selectedValues⟩ :: rest := by
  cases hvariant : _getVariantFromOptions self.product selectedValues with
  | none =>
    rw [onSelectChange_no_match self selectedValues hvariant]
    exact ⟨[], emitted_of_append _ _ _ rfl⟩
  | some variant =>
    cases hcurrent : self.currentVariant with
    | none =>
      rw [onSelectChange_null_current self selectedValues variant hvariant hcurrent]
      exact ⟨[], emitted_of_append _ _ _ rfl⟩
    | some current =>
      rw [onSelectChange_match self selectedValues variant current hvariant hcurrent]
      exact ⟨_, emitted_afterMatch self variant current⟩

/-- C13: when `_onSelectChange` is called twice in a row with the same
selection, the first call triggers a `variantChange`, and the second call
triggers exactly one event, a `variantChange` carrying the result of the
matcher: no `variantImageChange`, `variantPriceChange` or `variantSKUChange`. -/
theorem C13_second_call_only_variantChange (self : Variants)
    (selectedValues : List SelectedOption) :
    (∃ event ∈ emitted self (_onSelectChange self selectedValues).state,
        event.type = .variantChange)
      ∧ emitted (_onSelectChange self selectedValues).state
          (_onSelectChange (_onSelectChange self selectedValues).state selectedValues).state
        = [⟨.variantChange, _getVariantFromOptions self.product selectedValues⟩] := by
  constructor
  · obtain ⟨rest, hrest⟩ := emitted_head self selectedValues
    rw [hrest]
    exact ⟨_, List.mem_cons_self _ _, rfl⟩
  · have hproduct := onSelectChange_product self selectedValues
    cases hvariant : _getVariantFromOptions self.product selectedValues with
    | none =>
      rw [← hproduct] at hvariant
      rw [onSelectChange_no_match _ selectedValues hvariant]
      exact emitted_of_append _ _ _ rfl
    | some variant =>
      cases hcurrent : self.currentVariant with
      | none =>
        have hfirst := onSelectChange_null_current self selectedValues variant hvariant hcurrent
        have hstill : (_onSelectChange self selectedValues).state.currentVariant = none := by
          rw [hfirst]
          exact hcurrent
        rw [← hproduct] at hvariant
        rw [onSelectChange_null_current _ selectedValues variant hvariant hstill]
        exact emitted_of_append _ _ _ rfl
      | some current =>
        have hfirst := onSelectChange_match self selectedValues variant current hvariant hcurrent
        have hnow : (_onSelectChange self selectedValues).state.currentVariant
            = some variant := by
          rw [hfirst]
          exact (afterMatch_fields self variant current).2.1
        rw [← hproduct] at hvariant
        rw [onSelectChange_match _ selectedValues variant variant hvariant hnow]
        rw [show emitted (_onSelectChange self selectedValues).state
            (Completion.state (.ok (afterMatch (_onSelectChange self selectedValues).state
              variant variant))) = eventsOnMatch variant variant from emitted_afterMatch _ _ _]
        exact eventsOnMatch_self variant

/-- C14 (the code fails it): on the catalog `[(Red,S,id=1), (Blue,M,id=4)]`,
for the notifier constructed while the controls show `{Color = Red, Size = M}`
(`currentVariant = null`), the selection `{Color = Red, Size = S}` matches
`id = 1`, and after `_onSelectChange` the field `currentVariant` is still
`null`: the call raised before the assignment. -/
theorem C14_current_stays_null :
    _getVariantFromOptions loadedOnRedM.product colorRedSizeS = some redS
      ∧ (_onSelectChange loadedOnRedM colorRedSizeS).state.currentVariant = none
      ∧ (_onSelectChange loadedOnRedM colorRedSizeS).state.currentVariant ≠ some redS := by
  decide

/-- C15: when the selection matches variant `variant`, `_onSelectChange` sets
the value of the master select to `variant.id` (also on the path that raises
afterwards). -/
theorem C15_master_select (self : Variants) (selectedValues : List SelectedOption)
    (variant : Variant)
    (hvariant : _getVariantFromOptions self.product selectedValues = some variant) :
    (_onSelectChange self selectedValues).state.masterSelect = some variant.id := by
  cases hcurrent : self.currentVariant with
  | none =>
    rw [onSelectChange_null_current self selectedValues variant hvariant hcurrent]
    rfl
  | some current =>
    rw [onSelectChange_match self selectedValues variant current hvariant hcurrent]
    exact (afterMatch_fields self variant current).2.2.1

/-- Witness of C15: the current variant is `id = 1` and the selection becomes
`{Color = Red, Size = M}`. -/
theorem C15_master_select_witness :
    (_onSelectChange loadedOnRedS colorRedSizeM).state.masterSelect = some redM.id :=
  C15_master_select loadedOnRedS colorRedSizeM redM (by decide)

/-- C16 (as amended): when history-state integration is enabled, the browser
has `history.replaceState`, a current variant is set and the selection matches
variant `variant`, `_onSelectChange` replaces the URL by one with the same
protocol, host and path whose query string is `?variant=` followed by
`variant.id` (and no fragment), without adding a history entry; when the
integration is disabled or `history.replaceState` is missing, neither the URL
nor the history changes. -/
theorem C16_history_state (self : Variants) (selectedValues : List SelectedOption) :
    (∀ variant current : Variant,
        self.enableHistoryState = true → self.hasReplaceState = true →
        self.currentVariant = some current →
        _getVariantFromOptions self.product selectedValues = some variant →
        (_onSelectChange self selectedValues).state.location
            = ⟨self.location.protocol, self.location.host, self.location.pathname,
                "?variant=" ++ toString variant.id, ""⟩
          ∧ (_onSelectChange self selectedValues).state.historyLength = self.historyLength)
      ∧ (self.enableHistoryState = false ∨ self.hasReplaceState = false →
          (_onSelectChange self selectedValues).state.location = self.location
            ∧ (_onSelectChange self selectedValues).state.historyLength
                = self.historyLength) := by
  constructor
  · intro variant current henabled hreplace hcurrent hvariant
    rw [onSelectChange_match self selectedValues variant current hvariant hcurrent]
    simp [Completion.state, afterMatch, _updateHistoryState, henabled, hreplace]
  · intro hoff
    cases hvariant : _getVariantFromOptions self.product selectedValues with
    | none =>
      rw [onSelectChange_no_match self selectedValues hvariant]
      exact ⟨rfl, rfl⟩
    | some variant =>
      cases hcurrent : self.currentVariant with
      | none =>
        rw [onSelectChange_null_current self selectedValues variant hvariant hcurrent]
        exact ⟨rfl, rfl⟩
      | some current =>
        rw [onSelectChange_match self selectedValues variant current hvariant hcurrent]
        rcases hoff with hoff | hoff <;>
          simp only [Completion.state, afterMatch, _updateHistoryState, hoff] <;>
          cases self.enableHistoryState <;> cases self.hasReplaceState <;> simp_all

/-- Witness of C16 (as amended): with the integration enabled the selection
`{Color = Red, Size = M}` rewrites the query string to `?variant=2`; with the
integration disabled the same selection leaves the URL as it is. -/
theorem C16_history_state_witness :
    ((_onSelectChange loadedOnRedS colorRedSizeM).state.location
          = ⟨"https:", "shop.example", "/products/shirt", "?variant=" ++ toString redM.id, ""⟩
        ∧ (_onSelectChange loadedOnRedS colorRedSizeM).state.historyLength = 1)
      ∧ ((_onSelectChange loadedHistoryOff colorRedSizeM).state.location
            = loadedHistoryOff.location
          ∧ (_onSelectChange loadedHistoryOff colorRedSizeM).state.historyLength
              = loadedHistoryOff.historyLength) :=
  ⟨(C16_history_state loadedOnRedS colorRedSizeM).1 redM redS (by decide) (by decide)
      (by decide) (by decide),
    (C16_history_state loadedHistoryOff colorRedSizeM).2 (Or.inl (by decide))⟩

/-- C16 (as stated) fails: with history-state integration enabled, current
variant `id = 1` and the selection `{Color = Red, Size = M}` matching `id = 2`,
in a browser without `history.replaceState` the call returns normally and the
URL keeps its empty query string. -/
theorem C16_no_replaceState_counterexample :
    loadedWithoutReplaceState.enableHistoryState = true
      ∧ _getVariantFromOptions loadedWithoutReplaceState.product colorRedSizeM = some redM
      ∧ (_onSelectChange loadedWithoutReplaceState colorRedSizeM).raised = false
      ∧ (_onSelectChange loadedWithoutReplaceState colorRedSizeM).state.location.search = ""
      ∧ (_onSelectChange loadedWithoutReplaceState colorRedSizeM).state.location
          = loadedWithoutReplaceState.location := by
  decide

/-- C17: when the selection matches a variant `variant` whose price, compare-at
price, sku and featured image are those of the current variant `current`
(whatever the two ids), `_onSelectChange` returns normally and triggers
`variantChange` and nothing else. -/
theorem C17_identical_attributes (self : Variants) (selectedValues : List SelectedOption)
    (variant current : Variant)
    (hvariant : _getVariantFromOptions self.product selectedValues = some variant)
    (hcurrent : self.currentVariant = some current)
    (hprice : variant.price = current.price)
    (hcompare : variant.compare_at_price = current.compare_at_price)
    (hsku : variant.sku = current.sku)
    (himage : variant.featured_image = current.featured_image) :
    (_onSelectChange self selectedValues).raised = false
      ∧ emitted self (_onSelectChange self selectedValues).state
          = [⟨.variantChange, some variant⟩] := by
  rw [onSelectChange_match self selectedValues variant current hvariant hcurrent]
  refine ⟨rfl, ?_⟩
  rw [show emitted self (Completion.state (.ok (afterMatch self variant current)))
      = eventsOnMatch variant current from emitted_afterMatch self variant current]
  simp [eventsOnMatch, imageEvents, priceEvents, skuEvents, hprice, hcompare, hsku, himage]

/-- Witness of C17: the current variant is `id = 21` and the selection matches
`id = 22`, which shares price, compare-at price, sku and featured image. -/
theorem C17_identical_attributes_witness :
    gloss.id ≠ matte.id
      ∧ (_onSelectChange loadedOnMatte finishGloss).raised = false
      ∧ emitted loadedOnMatte (_onSelectChange loadedOnMatte finishGloss).state
          = [⟨.variantChange, some gloss⟩] :=
  ⟨by decide, C17_identical_attributes loadedOnMatte finishGloss gloss matte
    (by decide) (by decide) (by decide) (by decide) (by decide) (by decide)⟩

/-- C18: with the catalog `[(Red,S,id=1,price=1000), (Red,M,id=2,price=1200),
(Blue,S,id=3,price=1100,available=false)]` and current variant `id = 1`, the
selection `{Color = Blue, Size = S}` makes `_getVariantFromOptions` return
`id = 3`, and `_onSelectChange` returns normally having triggered a
`variantChange` and a `variantPriceChange`, both carrying that variant, whose
`available` is `false`. -/
theorem C18_scenario :
    loadedOnShirt1.currentVariant = some redS
      ∧ _getVariantFromOptions threeShirts colorBlueSizeS = some blueS
      ∧ blueS.id = 3 ∧ blueS.available = false
      ∧ (_onSelectChange loadedOnShirt1 colorBlueSizeS).raised = false
      ∧ emitted loadedOnShirt1 (_onSelectChange loadedOnShirt1 colorBlueSizeS).state
          = [⟨.variantChange, some blueS⟩, ⟨.variantPriceChange, some blueS⟩] := by
  decide

/-- C19: the constructor stores the catalog it is given, and after any
sequence of option-change events the catalog held by the notifier (the list of
variants and every field of every variant) is the one it held before. -/
theorem C19_catalog_unchanged (self : Variants) (selections : List (List SelectedOption)) :
    (optionChanges self selections).product = self.product
      ∧ ∀ (product : Product) (history : Bool) (master : Option Nat) (location : Location)
          (entries : Nat) (replace : Bool) (initial : List SelectedOption),
          (optionChanges (Variants.new product history master location entries replace initial)
            selections).product = product := by
  have hall : ∀ state : Variants, (optionChanges state selections).product = state.product := by
    induction selections with
    | nil => intro state; rfl
    | cons selectedValues rest ih =>
      intro state
      simp only [optionChanges, List.foldl_cons]
      exact (ih _).trans (onSelectChange_product state selectedValues)
  exact ⟨hall self, fun _ _ _ _ _ _ _ => hall _⟩

/-! ## Properties of the currency helpers -/

/-- Rounding to nearest moves the scaled quotient by at most half a unit. -/
theorem roundHalfEven_100 (numerator : Nat) :
    numerator ≤ 100 * roundHalfEven numerator 100 + 50
      ∧ 100 * roundHalfEven numerator 100 ≤ numerator + 50 := by
  unfold roundHalfEven
  simp only []
  split_ifs <;> omega

/-- The search for the binary shift never goes below its start. -/
theorem binaryShift_ge_start (c : Nat) : ∀ fuel start, start ≤ binaryShift c fuel start := by
  intro fuel
  induction fuel with
  | zero => intro start; exact Nat.le_refl _
  | succ fuel ih =>
    intro start
    unfold binaryShift
    split_ifs
    · exact Nat.le_refl _
    · exact Nat.le_trans (Nat.le_succ _) (ih (start + 1))

/-- The search for the binary shift passes every shift at which the scaled
amount is still below `100 * 2 ^ 52`. -/
theorem binaryShift_ge (c : Nat) : ∀ fuel start bound, bound ≤ start + fuel →
    (∀ shift, shift < bound → c * 2 ^ shift < 100 * 2 ^ 52) →
    bound ≤ binaryShift c fuel start := by
  intro fuel
  induction fuel with
  | zero =>
    intro start bound hbound _
    exact hbound
  | succ fuel ih =>
    intro start bound hbound hbelow
    unfold binaryShift
    split_ifs with htest
    · by_contra hlt
      have := hbelow start (by omega)
      omega
    · by_cases hle : bound ≤ start
      · exact Nat.le_trans hle (Nat.le_trans (Nat.le_succ _) (binaryShift_ge_start c fuel _))
      · exact ih (start + 1) bound (by omega) hbelow

/-- Below `100 * 2 ^ 46` the double `c / 100.0` has a binary shift of at least
seven: its unit in the last place is at most `2 ^ (-7)`. -/
theorem divideBy100_shift (c : Nat) (hc : c < 100 * 2 ^ 46) : 7 ≤ (divideBy100 c).2 := by
  unfold divideBy100
  simp only []
  apply binaryShift_ge c 60 0 7 (by omega)
  intro shift hshift
  have h6 : c * 2 ^ shift ≤ c * 2 ^ 6 :=
    Nat.mul_le_mul_left c (Nat.pow_le_pow_right (by omega) (by omega))
  have : c * 2 ^ 6 < 100 * 2 ^ 52 := by omega
  omega

/-- Below `100 * 2 ^ 46`, `(c / 100.0).toFixed(2)` recovers the integer `c`. -/
theorem toFixedInteger_two (c : Nat) (hc : c < 100 * 2 ^ 46) :
    toFixedInteger (divideBy100 c) 2 = c := by
  have hshift := divideBy100_shift c hc
  have hround := roundHalfEven_100 (c * 2 ^ (divideBy100 c).2)
  have hsig : (divideBy100 c).1 = roundHalfEven (c * 2 ^ (divideBy100 c).2) 100 := rfl
  rw [← hsig] at hround
  have hpow : 2 ^ 7 ≤ 2 ^ (divideBy100 c).2 := Nat.pow_le_pow_right (by omega) hshift
  unfold toFixedInteger
  generalize (divideBy100 c).1 = significand at hround
  generalize (divideBy100 c).2 = shift at hround hpow
  rw [show 2 * 10 ^ 2 = 200 from by norm_num,
    show 2 ^ (shift + 1) = 2 ^ shift * 2 from Nat.pow_succ 2 shift]
  generalize hP : 2 ^ shift = power at hround hpow
  apply Nat.div_eq_of_lt_le
  · have : c * (power * 2) = 2 * (c * power) := by ring
    omega
  · have : (c + 1) * (power * 2) = 2 * (c * power) + 2 * power := by ring
    omega

/-- One step of the digit loop of `Nat.toDigits`. -/
theorem toDigitsCore_step (fuel n : Nat) (digits : List Char) :
    Nat.toDigitsCore 10 (fuel + 1) n digits
      = if n / 10 = 0 then Nat.digitChar (n % 10) :: digits
        else Nat.toDigitsCore 10 fuel (n / 10) (Nat.digitChar (n % 10) :: digits) := rfl

/-- With enough fuel the digit loop prepends the decimal digits of `n`. -/
theorem toDigitsCore_eq (n : Nat) : ∀ fuel digits, n < fuel →
    Nat.toDigitsCore 10 fuel n digits = Nat.toDigits 10 n ++ digits := by
  induction n using Nat.strong_induction_on with
  | _ n ih =>
    intro fuel digits hfuel
    cases fuel with
    | zero => omega
    | succ fuel =>
      unfold Nat.toDigits
      rw [toDigitsCore_step, toDigitsCore_step]
      by_cases hsmall : n / 10 = 0
      · simp [hsmall]
      · simp only [hsmall, if_false]
        have hlt : n / 10 < n := by omega
        rw [ih (n / 10) hlt fuel _ (by omega), ih (n / 10) hlt n _ hlt]
        simp

/-- The decimal digits of a number below ten. -/
theorem toDigits_lt_ten (n : Nat) (h : n < 10) : Nat.toDigits 10 n = [Nat.digitChar n] := by
  unfold Nat.toDigits
  rw [toDigitsCore_step]
  have h0 : n / 10 = 0 := by omega
  have h1 : n % 10 = n := by omega
  simp [h0, h1]

/-- The decimal digits of a number from ten on: those of `n / 10` and the last
digit. -/
theorem toDigits_ge_ten (n : Nat) (h : 10 ≤ n) :
    Nat.toDigits 10 n = Nat.toDigits 10 (n / 10) ++ [Nat.digitChar (n % 10)] := by
  have hne : ¬ n / 10 = 0 := by omega
  have hstep : Nat.toDigits 10 n
      = Nat.toDigitsCore 10 n (n / 10) [Nat.digitChar (n % 10)] := by
    unfold Nat.toDigits
    rw [toDigitsCore_step]
    simp only [hne, if_false]
  rw [hstep, toDigitsCore_eq (n / 10) n _ (by omega)]

/-- A digit character is a digit. -/
theorem digitChar_isDigit (n : Nat) (h : n < 10) : (Nat.digitChar n).isDigit = true := by
  interval_cases n <;> decide

/-- The decimal digits of a number are digits. -/
theorem toDigits_isDigit (n : Nat) : ∀ ch ∈ Nat.toDigits 10 n, ch.isDigit = true := by
  induction n using Nat.strong_induction_on with
  | _ n ih =>
    intro ch hmem
    by_cases hsmall : n < 10
    · rw [toDigits_lt_ten n hsmall] at hmem
      rw [List.mem_singleton.mp hmem]
      exact digitChar_isDigit n hsmall
    · rw [toDigits_ge_ten n (by omega), List.mem_append] at hmem
      rcases hmem with hmem | hmem
      · exact ih (n / 10) (by omega) ch hmem
      · rw [List.mem_singleton.mp hmem]
        exact digitChar_isDigit (n % 10) (by omega)

/-- A number has at least one decimal digit. -/
theorem toDigits_length_pos (n : Nat) : 0 < (Nat.toDigits 10 n).length := by
  by_cases hsmall : n < 10
  · rw [toDigits_lt_ten n hsmall]
    simp
  · rw [toDigits_ge_ten n (by omega)]
    simp

/-- The string that `toFixed(2)` builds from `n`: the digits of `n / 100`, a
`.`, and the two digits of `n % 100`. -/
theorem toFixedDigits_two (n : Nat) :
    toFixedDigits n 2
      = Nat.toDigits 10 (n / 100)
          ++ '.' :: [Nat.digitChar (n % 100 / 10), Nat.digitChar (n % 100 % 10)] := by
  unfold toFixedDigits
  simp only [show (2 : Nat) ≠ 0 from by decide, if_false]
  by_cases h10 : n < 10
  · have h0 : n / 100 = 0 := by omega
    have h1 : n % 100 / 10 = 0 := by omega
    have h2 : n % 100 % 10 = n := by omega
    rw [toDigits_lt_ten n h10, h0, h1, h2, toDigits_lt_ten 0 (by omega)]
    rfl
  · by_cases h100 : n < 100
    · have h0 : n / 100 = 0 := by omega
      have h1 : n % 100 / 10 = n / 10 := by omega
      have h2 : n % 100 % 10 = n % 10 := by omega
      rw [toDigits_ge_ten n (by omega), toDigits_lt_ten (n / 10) (by omega), h0, h1, h2,
        toDigits_lt_ten 0 (by omega)]
      rfl
    · have h0 : n / 10 / 10 = n / 100 := by omega
      have h1 : n % 100 / 10 = n / 10 % 10 := by omega
      have h2 : n % 100 % 10 = n % 10 := by omega
      have hpos := toDigits_length_pos (n / 100)
      rw [toDigits_ge_ten n (by omega), toDigits_ge_ten (n / 10) (by omega), h0, h1, h2]
      have hlen : (Nat.toDigits 10 (n / 100) ++ [Nat.digitChar (n / 10 % 10)]
          ++ [Nat.digitChar (n % 10)]).length = (Nat.toDigits 10 (n / 100)).length + 2 := by
        simp
      rw [show 2 + 1 - (Nat.toDigits 10 (n / 100) ++ [Nat.digitChar (n / 10 % 10)]
          ++ [Nat.digitChar (n % 10)]).length = 0 from by rw [hlen]; omega]
      simp only [List.replicate, List.nil_append]
      rw [hlen, show (Nat.toDigits 10 (n / 100)).length + 2 - 2
          = (Nat.toDigits 10 (n / 100)).length from by omega]
      rw [List.append_assoc, List.take_left, List.drop_left]
      rfl

/-- On a text of digits the lookahead `(?=(\d\d\d)+(?!\d))` succeeds exactly
when the number of digits is a positive multiple of three. -/
theorem groupsOfThreeAhead_digits : ∀ (n : Nat) (digits : List Char), digits.length ≤ n →
    (∀ ch ∈ digits, ch.isDigit = true) →
    groupsOfThreeAhead digits = decide (0 < digits.length ∧ digits.length % 3 = 0) := by
  intro n
  induction n using Nat.strong_induction_on with
  | _ n ih =>
    intro digits hlen hdigits
    match digits, hlen, hdigits with
    | [], _, _ => rfl
    | [_], _, _ => rfl
    | [_, _], _, _ => rfl
    | a :: b :: c :: rest, hlen, hdigits =>
      have ha := hdigits a (by simp)
      have hb := hdigits b (by simp)
      have hc := hdigits c (by simp)
      have hrest : ∀ ch ∈ rest, ch.isDigit = true := fun ch hmem => hdigits ch (by simp [hmem])
      simp only [List.length_cons] at hlen
      have hih := ih rest.length (by omega) rest (Nat.le_refl _) hrest
      unfold groupsOfThreeAhead
      rw [ha, hb, hc, hih]
      cases rest with
      | nil => simp
      | cons next more =>
        have hnext := hrest next (by simp)
        simp only [hnext, List.length_cons]
        simp only [Bool.not_true, Bool.false_or, Bool.and_self, Bool.true_and]
        congr 1
        apply propext
        constructor
        · intro h
          omega
        · intro h
          omega

/-- Up to three digits get no separator. -/
theorem insertThousands_short (separator digits : List Char) (hlen : digits.length ≤ 3) :
    insertThousands separator digits = digits := by
  match digits, hlen with
  | [], _ => rfl
  | [a], _ => simp [insertThousands, groupsOfThreeAhead]
  | [a, b], _ => simp [insertThousands, groupsOfThreeAhead]
  | [a, b, c], _ => simp [insertThousands, groupsOfThreeAhead]
  | _ :: _ :: _ :: _ :: _, hlen => simp at hlen

/-- Three more digits at the end put one separator in front of them and leave
the separators before unchanged. -/
theorem insertThousands_append_three (separator : List Char) (last : List Char)
    (hlast : last.length = 3) (hlastDigits : ∀ ch ∈ last, ch.isDigit = true) :
    ∀ front : List Char, front ≠ [] → (∀ ch ∈ front, ch.isDigit = true) →
      insertThousands separator (front ++ last)
        = insertThousands separator front ++ separator ++ last := by
  intro front
  induction front with
  | nil => intro h; exact absurd rfl h
  | cons a rest ih =>
    intro _ hdigits
    have ha := hdigits a (by simp)
    have hrest : ∀ ch ∈ rest, ch.isDigit = true := fun ch hmem => hdigits ch (by simp [hmem])
    have hall : ∀ ch ∈ rest ++ last, ch.isDigit = true := by
      intro ch hmem
      rcases List.mem_append.mp hmem with h | h
      · exact hrest ch h
      · exact hlastDigits ch h
    rw [List.cons_append]
    unfold insertThousands
    rw [ha, groupsOfThreeAhead_digits _ (rest ++ last) (Nat.le_refl _) hall,
      groupsOfThreeAhead_digits _ rest (Nat.le_refl _) hrest]
    cases rest with
    | nil =>
      simp only [List.nil_append, hlast, List.length_nil]
      simp [insertThousands_short separator last (by omega), insertThousands]
    | cons b more =>
      have hih := ih (by simp) hrest
      rw [hih]
      have hiff : decide (0 < (b :: more ++ last).length ∧ (b :: more ++ last).length % 3 = 0)
          = decide (0 < (b :: more).length ∧ (b :: more).length % 3 = 0) := by
        congr 1
        apply propext
        simp only [List.length_append, List.length_cons, hlast]
        constructor
        · intro h
          omega
        · intro h
          omega
      rw [hiff]
      split_ifs <;> simp

/-- On a text of digits the replacement with the lookahead inserts the
separator every three digits from the right. -/
theorem insertThousands_eq_groupFromRight (separator : List Char) :
    ∀ (fuel : Nat) (digits : List Char), digits.length ≤ fuel →
      (∀ ch ∈ digits, ch.isDigit = true) →
      insertThousands separator digits = groupFromRight separator fuel digits := by
  intro fuel
  induction fuel with
  | zero =>
    intro digits hlen _
    have : digits = [] := List.length_eq_zero.mp (by omega)
    subst this
    rfl
  | succ fuel ih =>
    intro digits hlen hdigits
    unfold groupFromRight
    by_cases hshort : digits.length ≤ 3
    · simp only [hshort, if_true]
      exact insertThousands_short separator digits hshort
    · simp only [hshort, if_false]
      have hfront : ∀ ch ∈ digits.take (digits.length - 3), ch.isDigit = true :=
        fun ch hmem => hdigits ch (List.mem_of_mem_take hmem)
      have hlast : ∀ ch ∈ digits.drop (digits.length - 3), ch.isDigit = true :=
        fun ch hmem => hdigits ch (List.mem_of_mem_drop hmem)
      have hne : digits.take (digits.length - 3) ≠ [] := by
        intro h
        have := congrArg List.length h
        simp at this
        omega
      rw [← ih (digits.take (digits.length - 3)) (by simp; omega) hfront,
        ← insertThousands_append_three separator (digits.drop (digits.length - 3))
          (by simp; omega) hlast _ hne hfront,
        List.take_append_drop]

/-- A digit is not the character `.`. -/
theorem isDigit_ne_dot (ch : Char) (h : ch.isDigit = true) : (ch != '.') = true := by
  by_contra hne
  have heq : ch = '.' := by simpa using hne
  rw [heq] at h
  exact absurd h (by decide)

/-- `split('.')` on digits followed by `.`: the first part is the digits. -/
theorem takeWhile_digits (digits rest : List Char) (hdigits : ∀ ch ∈ digits, ch.isDigit = true) :
    (digits ++ '.' :: rest).takeWhile (fun ch => ch != '.') = digits
      ∧ (digits ++ '.' :: rest).dropWhile (fun ch => ch != '.') = '.' :: rest := by
  induction digits with
  | nil => exact ⟨rfl, rfl⟩
  | cons a more ih =>
    have ha := isDigit_ne_dot a (hdigits a (by simp))
    have hmore := ih (fun ch hmem => hdigits ch (by simp [hmem]))
    simp only [List.cons_append, List.takeWhile_cons, List.dropWhile_cons, ha, if_true]
    exact ⟨by rw [hmore.1], hmore.2⟩

/-- `formatWithDelimiters` on the string `toFixed(2)` returned: the integer
part gets the thousands separators, the two decimals follow the decimal
separator. -/
theorem delimit_two (n : Nat) (thousands decimal : List Char) :
    delimit (toFixedDigits n 2) thousands decimal
      = insertThousands thousands (Nat.toDigits 10 (n / 100))
          ++ (decimal ++ [Nat.digitChar (n % 100 / 10), Nat.digitChar (n % 100 % 10)]) := by
  have hsplit := takeWhile_digits (Nat.toDigits 10 (n / 100))
    [Nat.digitChar (n % 100 / 10), Nat.digitChar (n % 100 % 10)] (toDigits_isDigit (n / 100))
  have h1 := isDigit_ne_dot _ (digitChar_isDigit (n % 100 / 10) (by omega))
  have h2 := isDigit_ne_dot _ (digitChar_isDigit (n % 100 % 10) (by omega))
  unfold delimit
  rw [toFixedDigits_two, hsplit.1, hsplit.2]
  simp only [List.takeWhile_cons, h1, h2, if_true, List.takeWhile_nil]

/-- An integer of at most `2 ^ 53` is a double. -/
theorem isDouble_small (fuel c : Nat) (hc : c ≤ 2 ^ 53) : isDouble fuel c = true := by
  have h : c ≤ 9007199254740992 := by omega
  cases fuel <;> simp [isDouble, h]

/-- `(c / 100.0).toFixed(precision)` for a non-negative integer of at most
`2 ^ 53`. -/
theorem centsToFixed_small (c precision : Nat) (hc : c ≤ 2 ^ 53) :
    centsToFixed (c : Int) precision
      = some (if c = 0 then toFixedDigits 0 precision
          else toFixedDigits (toFixedInteger (divideBy100 c) precision) precision) := by
  unfold centsToFixed
  have hrange : ¬ 100 * 2 ^ 53 ≤ c := by omega
  have hpos : ¬ (c : Int) < 0 := by omega
  rw [Int.natAbs_ofNat, isDouble_small 7 c hc]
  by_cases hzero : c = 0
  · subst hzero
    rfl
  · have hne : ¬ (c : Int) = 0 := by exact_mod_cast hzero
    have hlt : c < 900719925474099200 := by omega
    simp [hne, hpos, hzero, hlt]

/-- Below `100 * 2 ^ 46`, `(c / 100.0).toFixed(2)` is the string built from the
integer `c`. -/
theorem centsToFixed_two (c : Nat) (hc : c < 100 * 2 ^ 46) :
    centsToFixed (c : Int) 2 = some (toFixedDigits c 2) := by
  rw [centsToFixed_small c 2 (by omega)]
  by_cases hzero : c = 0
  · subst hzero
    rfl
  · simp only [hzero, if_false, toFixedInteger_two c hc]

/-- The placeholder of the template `{{amount}}`. -/
theorem findPlaceholder_amount :
    findPlaceholder "{{amount}}".toList = some ([], "amount".toList, []) := by
  decide

/-- C20 (as amended): for every non-negative integer amount `c` below
`100 * 2 ^ 46` (about `7.0e15` minor units), `formatMoney(c, "{{amount}}")` is
the decimal digits of `c div 100` with `,` inserted every three digits from the
right, followed by `.` and the two digits of `c mod 100`; in particular
`formatMoney(1050, "{{amount}}") = "10.50"` and
`formatMoney(123456, "{{amount}}") = "1,234.56"`. -/
theorem C20_amount_format (c : Nat) (hc : c < 100 * 2 ^ 46) :
    formatMoney (.number c) (some "{{amount}}") = .returns (amountText c)
      ∧ formatMoney (.number 1050) (some "{{amount}}") = .returns "10.50"
      ∧ formatMoney (.number 123456) (some "{{amount}}") = .returns "1,234.56" := by
  refine ⟨?_, by decide, by decide⟩
  have hgroup := insertThousands_eq_groupFromRight [','] (Nat.toDigits 10 (c / 100)).length
    (Nat.toDigits 10 (c / 100)) (Nat.le_refl _) (toDigits_isDigit (c / 100))
  have hvalue : formatWithDelimiters (.number c) (.value 2) .undefined .undefined
      = some (.string (amountText c)) := by
    simp only [formatWithDelimiters, defaultTo, centsToFixed_two c hc, Option.map_some',
      amountText]
    rw [show ",".toList = [','] from rfl, show ".".toList = ['.'] from rfl, delimit_two, hgroup]
    rfl
  simp only [formatMoney]
  rw [show (if ("{{amount}}" : String).isEmpty = true then "$" else "{{amount}}")
      = "{{amount}}" from by decide, findPlaceholder_amount]
  simp only [beq_self_eq_true, if_true, hvalue, replacementText, List.nil_append,
    List.append_nil]
  rfl

/-- Witness of C20 (as amended): the amount `123456`. -/
theorem C20_amount_format_witness :
    formatMoney (.number (123456 : Nat)) (some "{{amount}}") = .returns (amountText 123456)
      ∧ amountText 123456 = "1,234.56" :=
  ⟨(C20_amount_format 123456 (by decide)).1, by decide⟩

/-- C20 (as stated) fails: `8000000000000001` is an integer below `2 ^ 53`, the
double nearest to `80000000000000.01` is `80000000000000.015625`, and
`formatMoney(8000000000000001, "{{amount}}")` ends in `.02` where the digits of
the amount `mod 100` are `01`. -/
theorem C20_large_amount_counterexample :
    (8000000000000001 : Nat) < 2 ^ 53
      ∧ divideBy100 8000000000000001 = (5120000000000001, 6)
      ∧ formatMoney (.number (8000000000000001 : Nat)) (some "{{amount}}")
          = .returns "80,000,000,000,000.02"
      ∧ amountText 8000000000000001 = "80,000,000,000,000.01" := by
  decide

/-! ## Properties of the utility helpers -/

/-- The loop of `compact`, started before index `i` with `resIndex` at the end
of `result`, appends the truthy elements from index `i` on and leaves the
array as it is. -/
theorem compactLoop_spec {α : Type} (items : List (Item α)) :
    ∀ (fuel i : Nat) (index : Int) (resIndex : Nat) (result : List (Item α)),
      index + 1 = (i : Int) → resIndex = result.length → i ≤ items.length →
      items.length < i + fuel →
      (compactLoop fuel ⟨.array items, index, items.length, resIndex, result⟩).result
          = result ++ (items.drop i).filter Item.truthy
        ∧ (compactLoop fuel ⟨.array items, index, items.length, resIndex, result⟩).array
          = .array items := by
  intro fuel
  induction fuel with
  | zero =>
    intro i index resIndex result _ _ hle hfuel
    omega
  | succ fuel ih =>
    intro i index resIndex result hindex hres hle hfuel
    unfold compactLoop
    simp only [hindex]
    by_cases hlt : i < items.length
    · have hcond : (i : Int) < (items.length : Int) := by exact_mod_cast hlt
      have hread : (ArrayArg.array items).read (i : Int) = some (items.get ⟨i, hlt⟩) := by
        have hnonneg : ¬ (i : Int) < 0 := by omega
        simp only [ArrayArg.read, hnonneg, if_false, Int.toNat_ofNat]
        exact List.get?_eq_get hlt
      have hdrop : items.drop i = items.get ⟨i, hlt⟩ :: items.drop (i + 1) :=
        (List.drop_eq_getElem_cons hlt)
      simp only [hcond, if_true, hread]
      by_cases htruthy : (items.get ⟨i, hlt⟩).truthy = true
      · simp only [htruthy, if_true]
        have hassign : assignAt result resIndex (items.get ⟨i, hlt⟩)
            = result ++ [items.get ⟨i, hlt⟩] := by
          unfold assignAt
          simp [hres]
        rw [hassign]
        have := ih (i + 1) (i : Int) (resIndex + 1) (result ++ [items.get ⟨i, hlt⟩])
          (by push_cast; rfl) (by simp [hres]) (by omega) (by omega)
        rw [this.1, this.2, hdrop, List.filter_cons_of_pos htruthy]
        simp
      · simp only [htruthy]
        have := ih (i + 1) (i : Int) resIndex result (by push_cast; rfl) hres (by omega)
          (by omega)
        simp only [Bool.false_eq_true, if_false]
        rw [this.1, this.2, hdrop, List.filter_cons_of_neg htruthy]
        simp
    · have hcond : ¬ (i : Int) < (items.length : Int) := by
        intro h
        exact hlt (by exact_mod_cast h)
      have heq : i = items.length := by omega
      simp only [hcond, if_false]
      rw [heq, List.drop_length]
      simp

/-- `compact` returns the truthy elements of an array in their order. -/
theorem compact_eq_filter {α : Type} (items : List (Item α)) :
    compact (.array items) = items.filter Item.truthy := by
  have h := (compactLoop_spec items (items.length + 1) 0 (-1) 0 [] (by simp) rfl
    (Nat.zero_le _) (by omega)).1
  simpa [compact, compactRun] using h

/-- C26: the selection built by `_getCurrentOptions` holds, in the order of the
controls, the entry `{value, index}` of every control that is not a radio
button or checkbox (a `select`) and of every checked radio button or checkbox,
and nothing for an unchecked radio button or checkbox. -/
theorem C26_current_options (controls : List Control) :
    _getCurrentOptions controls
      = (controls.filter (fun element =>
            !(element.type == some "radio" || element.type == some "checkbox")
              || element.checked)).map
          (fun element => Item.record ⟨element.value, element.index⟩) := by
  have hfilter : ∀ items : List (Item SelectedOption),
      _compact (.array items) = items.filter Item.truthy := compact_eq_filter
  unfold _getCurrentOptions
  simp only [hfilter]
  induction controls with
  | nil => rfl
  | cons element rest ih =>
    simp only [List.map_cons, List.filter_cons, ih]
    unfold currentOptionOf
    by_cases hkind : (element.type == some "radio" || element.type == some "checkbox") = true
    · by_cases hchecked : element.checked = true
      · simp [hkind, hchecked, Item.truthy]
      · simp [hkind, hchecked, Item.truthy, JSValue.truthy]
    · simp [hkind, Item.truthy]

/-- C27: `compact` returns exactly the truthy elements of an array in their
original order, so that `false`, `null`, `undefined`, `0`, `NaN` and the empty
string are removed; it returns the empty array for a `null` or `undefined`
argument; it leaves its argument unchanged; and it is idempotent.  The copy
`_compact` returns the same array. -/
theorem C27_compact {α : Type} (items : List (Item α)) :
    compact (.array items) = items.filter Item.truthy
      ∧ compact (.array ([.value (.boolean false), .value .null, .value .undefined,
          .value (.number 0), .nan, .value (.string "")] : List (Item α))) = []
      ∧ compact (.null : ArrayArg α) = []
      ∧ compact (.undefined : ArrayArg α) = []
      ∧ (compactRun (.array items)).array = .array items
      ∧ compact (.array (compact (.array items))) = compact (.array items)
      ∧ _compact (.array items) = compact (.array items) := by
  refine ⟨compact_eq_filter items, ?_, rfl, rfl, ?_, ?_, rfl⟩
  · rw [compact_eq_filter]
    rfl
  · exact (compactLoop_spec items (items.length + 1) 0 (-1) 0 [] (by simp) rfl
      (Nat.zero_le _) (by omega)).2
  · rw [compact_eq_filter, compact_eq_filter, List.filter_filter]
    simp

/-- C28: `defaultTo(value, defaultValue)` returns `defaultValue` when `value` is
`NaN`, `null` or `undefined` and returns the value itself otherwise, whatever
the default; in particular the falsy values `0` and the empty string are kept,
so that `formatWithDelimiters(n, 0)` uses precision `0` where a missing
precision gives two decimals. -/
theorem C28_defaultTo {α : Type} (value : Arg α) (defaultValue : α) :
    ((value = .nan ∨ value = .null ∨ value = .undefined) →
        defaultTo value defaultValue = defaultValue)
      ∧ (∀ a : α, value = .value a → defaultTo value defaultValue = a)
      ∧ defaultTo (.value 0) 2 = 0
      ∧ defaultTo (.value "") "," = ""
      ∧ formatWithDelimiters (.number 150) (.value 0) .undefined .undefined
          = some (.string "2")
      ∧ formatWithDelimiters (.number 150) .undefined .undefined .undefined
          = some (.string "1.50") := by
  refine ⟨?_, ?_, rfl, rfl, by decide, by decide⟩
  · rintro (h | h | h) <;> rw [h] <;> rfl
  · intro a h
    rw [h]
    rfl

/-- Witness of C28: the precision `0` is kept and the missing separator gets
its default. -/
theorem C28_defaultTo_witness :
    defaultTo (.value 0) 2 = 0 ∧ defaultTo (.undefined : Arg String) "," = "," :=
  ⟨(C28_defaultTo (.value 0) 2).2.1 0 rfl,
    (C28_defaultTo (.undefined : Arg String) ",").1 (Or.inr (Or.inr rfl))⟩

/-! ## Properties of `formatMoney` on templates -/

/-- A template in which a placeholder is found is not empty, so it is the
format string. -/
theorem formatString_of_found (template : String) {found : List Char × List Char × List Char}
    (hfind : findPlaceholder template.toList = some found) :
    (if template.isEmpty = true then "$" else template) = template := by
  by_cases hempty : template.isEmpty = true
  · have : template = "" := (String.isEmpty_iff template).mp hempty
    subst this
    have hnone : findPlaceholder "".toList = none := by decide
    rw [hnone] at hfind
    exact Option.noConfusion hfind
  · exact if_neg hempty

/-- `formatMoney` on a template in which `placeholderRegex` matches: the match
is replaced by the value computed for the captured word. -/
theorem formatMoney_found (cents : Amount) (template : String)
    (before word after : List Char)
    (hfind : findPlaceholder template.toList = some (before, word, after)) :
    formatMoney cents (some template)
      = match valueForMode word (withoutFirstDot cents) with
        | none => .unmodelled
        | some value => .returns (String.mk (before ++ replacementText value ++ after)) := by
  simp only [formatMoney, formatString_of_found template hfind, hfind]
  cases cents <;> rfl

/-- `formatMoney` on a format in which `placeholderRegex` does not match. -/
theorem formatMoney_not_found (cents : Amount) (template : String)
    (hfind : findPlaceholder template.toList = none) :
    formatMoney cents (some template) = .raises .typeError := by
  unfold formatMoney
  by_cases hempty : template.isEmpty = true
  · simp only [hempty, if_true, show findPlaceholder "$".toList = none from by decide]
  · have hformat : (if template.isEmpty = true then "$" else template) = template :=
      if_neg hempty
    simp only [hformat, hfind]

/-- For a `null`, `undefined` or `NaN` amount `formatWithDelimiters` returns
the number `0`. -/
theorem formatWithDelimiters_absent (cents : Amount)
    (hcents : cents = .null ∨ cents = .undefined ∨ cents = .nan)
    (precision : Arg Nat) (thousands decimal : Arg String) :
    formatWithDelimiters cents precision thousands decimal = some (.number 0) := by
  rcases hcents with h | h | h <;> rw [h] <;> rfl

/-- For a string amount that converts to `NaN`, `formatWithDelimiters` returns
the number `0`. -/
theorem formatWithDelimiters_nan_string (text : String)
    (hnan : stringToNumber text.toList = .nan)
    (precision : Arg Nat) (thousands decimal : Arg String) :
    formatWithDelimiters (.string text) precision thousands decimal = some (.number 0) := by
  simp only [formatWithDelimiters, hnan]

/-- For a recognised word, an amount for which `formatWithDelimiters` returns
the number `0` in every mode has the value `0`. -/
theorem valueForMode_zero (word : List Char) (cents : Amount)
    (hmode : word ∈ recognisedModes)
    (hzero : ∀ (precision : Arg Nat) (thousands decimal : Arg String),
      formatWithDelimiters cents precision thousands decimal = some (.number 0)) :
    valueForMode word cents = some (.number 0) := by
  unfold valueForMode
  simp only [hzero]
  split_ifs with h1 h2 h3 h4 h5
  · rfl
  · rfl
  · rfl
  · rfl
  · rfl
  · simp only [recognisedModes, List.mem_cons, List.mem_singleton, List.not_mem_nil,
      or_false] at hmode
    rcases hmode with h | h | h | h | h <;> subst h <;> simp_all

/-- For a word that is none of the five modes the value is the empty string. -/
theorem valueForMode_unrecognised (word : List Char) (cents : Amount)
    (hmode : word ∉ recognisedModes) :
    valueForMode word cents = some (.string "") := by
  have hne : ∀ mode ∈ recognisedModes, (word == mode) = false := by
    intro mode hmem
    by_contra h
    have : word = mode := by simpa using h
    exact hmode (this ▸ hmem)
  unfold valueForMode
  rw [hne _ (by simp [recognisedModes]), hne "amount_no_decimals".toList (by simp [recognisedModes]),
    hne "amount_with_comma_separator".toList (by simp [recognisedModes]),
    hne "amount_no_decimals_with_comma_separator".toList (by simp [recognisedModes]),
    hne "amount_no_decimals_with_space_separator".toList (by simp [recognisedModes])]
  rfl

/-- C22 (the code fails it): for every amount, `formatMoney` called without a
template uses the built-in default `'$'`, in which `placeholderRegex` does not
match, and raises a `TypeError` (`match` returns `null`, of which `[1]` is
read); so does every call whose template has no placeholder, such as
`'$'` and `'10 EUR'`. -/
theorem C22_no_placeholder_raises (cents : Amount) :
    formatMoney cents none = .raises .typeError
      ∧ formatMoney cents (some "$") = .raises .typeError
      ∧ formatMoney cents (some "10 EUR") = .raises .typeError
      ∧ formatMoney (.number 1050) none = .raises .typeError := by
  refine ⟨?_, formatMoney_not_found cents "$" (by decide),
    formatMoney_not_found cents "10 EUR" (by decide), by decide⟩
  unfold formatMoney
  simp only [show findPlaceholder "$".toList = none from by decide]

/-- C23: for a template whose placeholder is one of the five recognised modes,
`formatMoney` applied to a `null`, `undefined` or `NaN` amount, or to a string
that does not convert to a number, returns the template with the placeholder
replaced by `0`; in particular `formatMoney(null, "{{amount}}") = "0"`. -/
theorem C23_absent_amount (template : String) (before word after : List Char)
    (hfind : findPlaceholder template.toList = some (before, word, after))
    (hmode : word ∈ recognisedModes) :
    (∀ cents : Amount, cents = .null ∨ cents = .undefined ∨ cents = .nan →
        formatMoney cents (some template) = .returns (String.mk (before ++ '0' :: after)))
      ∧ (∀ text : String, stringToNumber (removeFirstDot text.toList) = .nan →
          formatMoney (.string text) (some template)
            = .returns (String.mk (before ++ '0' :: after)))
      ∧ formatMoney .null (some "{{amount}}") = .returns "0" := by
  have hzero : replacementText (.number 0) = ['0'] := by decide
  refine ⟨?_, ?_, by decide⟩
  · intro cents hcents
    have hsame : withoutFirstDot cents = cents := by
      rcases hcents with h | h | h <;> rw [h] <;> rfl
    rw [formatMoney_found cents template before word after hfind, hsame,
      valueForMode_zero word cents hmode (formatWithDelimiters_absent cents hcents)]
    simp only [hzero, List.append_assoc, List.singleton_append]
  · intro text hnan
    rw [formatMoney_found _ template before word after hfind,
      show withoutFirstDot (.string text)
        = .string (String.mk (removeFirstDot text.toList)) from rfl,
      valueForMode_zero word _ hmode
        (formatWithDelimiters_nan_string (String.mk (removeFirstDot text.toList)) hnan)]
    simp only [hzero, List.append_assoc, List.singleton_append]

/-- Witness of C23: the five mode templates, here with a currency sign in
front, and the amounts `null`, `undefined`, `NaN` and `"abc"`. -/
theorem C23_absent_amount_witness :
    formatMoney .null (some "${{amount}}") = .returns "$0"
      ∧ formatMoney .undefined (some "${{amount}}") = .returns "$0"
      ∧ formatMoney .nan (some "${{amount}}") = .returns "$0"
      ∧ formatMoney (.string "abc") (some "${{amount}}") = .returns "$0" :=
  have h := C23_absent_amount "${{amount}}" ['$'] "amount".toList [] (by decide) (by decide)
  ⟨h.1 .null (Or.inl rfl), h.1 .undefined (Or.inr (Or.inl rfl)),
    h.1 .nan (Or.inr (Or.inr rfl)), h.2.1 "abc" (by decide)⟩

/-- C24: for every amount and every template whose placeholder word is none of
the five recognised modes, `formatMoney` returns the template with the
placeholder replaced by the empty string; in particular
`formatMoney(1050, "{{foo}}") = ""`. -/
theorem C24_unrecognised_word (cents : Amount) (template : String)
    (before word after : List Char)
    (hfind : findPlaceholder template.toList = some (before, word, after))
    (hmode : word ∉ recognisedModes) :
    formatMoney cents (some template) = .returns (String.mk (before ++ after))
      ∧ formatMoney (.number 1050) (some "{{foo}}") = .returns "" := by
  refine ⟨?_, by decide⟩
  rw [formatMoney_found cents template before word after hfind,
    valueForMode_unrecognised word _ hmode]
  simp [replacementText]

/-- Witness of C24: the template `Price: {{ foo }}!`. -/
theorem C24_unrecognised_word_witness :
    formatMoney (.number 1050) (some "Price: {{ foo }}!") = .returns "Price: !" :=
  (C24_unrecognised_word (.number 1050) "Price: {{ foo }}!" "Price: ".toList "foo".toList
    ['!'] (by decide) (by decide)).1

/-! ## Properties of the modes without decimals -/

/-- Below `100 * 2 ^ 47` the double `c / 100.0` has a binary shift of at least
six. -/
theorem divideBy100_shift_six (c : Nat) (hc : c < 100 * 2 ^ 47) : 6 ≤ (divideBy100 c).2 := by
  unfold divideBy100
  simp only []
  apply binaryShift_ge c 60 0 6 (by omega)
  intro shift hshift
  have h5 : c * 2 ^ shift ≤ c * 2 ^ 5 :=
    Nat.mul_le_mul_left c (Nat.pow_le_pow_right (by omega) (by omega))
  have : c * 2 ^ 5 < 100 * 2 ^ 52 := by omega
  omega

/-- Below `100 * 2 ^ 47`, `(c / 100.0).toFixed(0)` is `c / 100` rounded to the
nearest integer, a half being rounded up. -/
theorem toFixedInteger_zero (c : Nat) (hc : c < 100 * 2 ^ 47) :
    toFixedInteger (divideBy100 c) 0 = (c + 50) / 100 := by
  have hshift := divideBy100_shift_six c hc
  have hround := roundHalfEven_100 (c * 2 ^ (divideBy100 c).2)
  have hsig : (divideBy100 c).1 = roundHalfEven (c * 2 ^ (divideBy100 c).2) 100 := rfl
  rw [← hsig] at hround
  unfold toFixedInteger
  generalize (divideBy100 c).1 = significand at hround
  generalize (divideBy100 c).2 = shift at hround hshift
  obtain ⟨half, rfl⟩ : ∃ half, shift = half + 1 := ⟨shift - 1, by omega⟩
  have hpow : 2 ^ 5 ≤ 2 ^ half := Nat.pow_le_pow_right (by omega) (by omega)
  rw [show 2 * 10 ^ 0 = 2 from by norm_num,
    show 2 ^ (half + 1 + 1) = 2 ^ (half + 1) * 2 from Nat.pow_succ 2 (half + 1),
    show 2 ^ (half + 1) = 2 ^ half * 2 from Nat.pow_succ 2 half] at *
  generalize 2 ^ half = power at hround hpow ⊢
  have hdiv := Nat.div_add_mod (c + 50) 100
  have hmod := Nat.mod_lt (c + 50) (show 100 > 0 by omega)
  generalize (c + 50) / 100 = quotient at hdiv ⊢
  generalize (c + 50) % 100 = remainder at hdiv hmod
  have hc' : c + 50 = 100 * quotient + remainder := hdiv.symm
  have hprod : c * (power * 2) + 50 * (power * 2)
      = 100 * (quotient * (power * 2)) + remainder * (power * 2) := by
    have := congrArg (fun t => t * (power * 2)) hc'
    simp only at this
    linarith
  have hrem : remainder * (power * 2) ≤ 99 * (power * 2) :=
    Nat.mul_le_mul_right _ (by omega)
  apply Nat.div_eq_of_lt_le
  · have hexp : quotient * (power * 2 * 2) = 2 * (quotient * (power * 2)) := by ring
    generalize c * (power * 2) = scaled at hround hprod
    generalize quotient * (power * 2) = y at hprod hexp
    generalize remainder * (power * 2) = z at hprod hrem
    omega
  · have hexp : (quotient + 1) * (power * 2 * 2)
        = 2 * (quotient * (power * 2)) + 4 * power := by ring
    generalize c * (power * 2) = scaled at hround hprod
    generalize quotient * (power * 2) = y at hprod hexp
    generalize remainder * (power * 2) = z at hprod hrem
    omega

/-- A text of digits has no `.`. -/
theorem takeWhile_all_digits (digits : List Char) (hdigits : ∀ ch ∈ digits, ch.isDigit = true) :
    digits.takeWhile (fun ch => ch != '.') = digits
      ∧ digits.dropWhile (fun ch => ch != '.') = [] := by
  induction digits with
  | nil => exact ⟨rfl, rfl⟩
  | cons a more ih =>
    have ha := isDigit_ne_dot a (hdigits a (by simp))
    have hmore := ih (fun ch hmem => hdigits ch (by simp [hmem]))
    simp only [List.takeWhile_cons, List.dropWhile_cons, ha, if_true]
    exact ⟨by rw [hmore.1], hmore.2⟩

/-- `formatWithDelimiters` on the string `toFixed(0)` returned: the digits get
the thousands separators and there is no decimal part. -/
theorem delimit_zero (n : Nat) (thousands decimal : List Char) :
    delimit (toFixedDigits n 0) thousands decimal
      = groupFromRight thousands (Nat.toDigits 10 n).length (Nat.toDigits 10 n) := by
  have hsplit := takeWhile_all_digits (Nat.toDigits 10 n) (toDigits_isDigit n)
  have hfixed : toFixedDigits n 0 = Nat.toDigits 10 n := by
    unfold toFixedDigits
    simp
  unfold delimit
  rw [hfixed, hsplit.1, hsplit.2]
  simp only [List.append_nil]
  exact insertThousands_eq_groupFromRight thousands _ _ (Nat.le_refl _) (toDigits_isDigit n)

/-- The value of `formatWithDelimiters(c, 0, thousands, decimal)` for a
non-negative integer of at most `2 ^ 53`. -/
theorem formatWithDelimiters_zero (c : Nat) (hc : c ≤ 2 ^ 53) (thousands decimal : Arg String) :
    formatWithDelimiters (.number c) (.value 0) thousands decimal
      = some (.string (noDecimalsText (defaultTo thousands ",").toList c)) := by
  have hfixed : centsToFixed (c : Int) 0 = some (toFixedDigits ((c + 50) / 100) 0) := by
    rw [centsToFixed_small c 0 hc]
    by_cases hzero : c = 0
    · subst hzero
      rfl
    · simp only [hzero, if_false, toFixedInteger_zero c (by omega)]
  simp only [formatWithDelimiters, defaultTo, hfixed, Option.map_some', delimit_zero,
    noDecimalsText]

/-- `formatMoney` of a number in a mode without decimals, for a non-negative
integer of at most `2 ^ 53`. -/
theorem formatMoney_no_decimals (c : Nat) (hc : c ≤ 2 ^ 53) (template : String)
    (word : List Char) (thousands decimal : Arg String)
    (hfind : findPlaceholder template.toList = some ([], word, []))
    (hvalue : valueForMode word (.number c)
      = formatWithDelimiters (.number c) (.value 0) thousands decimal) :
    formatMoney (.number c) (some template)
      = .returns (noDecimalsText (defaultTo thousands ",").toList c) := by
  rw [formatMoney_found _ template [] word [] hfind,
    show withoutFirstDot (.number c) = .number c from rfl, hvalue,
    formatWithDelimiters_zero c hc]
  simp only [replacementText, List.nil_append, List.append_nil]
  rfl

/-- C21 (as amended): for every non-negative integer amount `c` of at most
`2 ^ 53`, each mode without decimals renders `c / 100` rounded to the nearest
integer (a half is rounded up), with no decimal part and with the thousands
separator of the mode (`,`, `.` or a space) every three digits from the right;
in particular `formatMoney(100, "{{amount_no_decimals}}") = "1"` and
`formatMoney(1000000, "{{amount_no_decimals_with_comma_separator}}") =
"10.000"`. -/
theorem C21_no_decimals (c : Nat) (hc : c ≤ 2 ^ 53) :
    formatMoney (.number c) (some "{{amount_no_decimals}}")
        = .returns (noDecimalsText [','] c)
      ∧ formatMoney (.number c) (some "{{amount_no_decimals_with_comma_separator}}")
        = .returns (noDecimalsText ['.'] c)
      ∧ formatMoney (.number c) (some "{{amount_no_decimals_with_space_separator}}")
        = .returns (noDecimalsText [' '] c)
      ∧ formatMoney (.number 100) (some "{{amount_no_decimals}}") = .returns "1"
      ∧ formatMoney (.number 1000000) (some "{{amount_no_decimals_with_comma_separator}}")
        = .returns "10.000" := by
  refine ⟨?_, ?_, ?_, by decide, by decide⟩
  · exact formatMoney_no_decimals c hc _ "amount_no_decimals".toList .undefined .undefined
      (by decide) rfl
  · exact formatMoney_no_decimals c hc _ "amount_no_decimals_with_comma_separator".toList
      (.value ".") (.value ",") (by decide) rfl
  · exact formatMoney_no_decimals c hc _ "amount_no_decimals_with_space_separator".toList
      (.value " ") .undefined (by decide) rfl

/-- Witness of C21 (as amended): the amount `123450` is rendered as `1,235`,
`1.235` and `1 235`. -/
theorem C21_no_decimals_witness :
    formatMoney (.number (123450 : Nat)) (some "{{amount_no_decimals}}")
        = .returns (noDecimalsText [','] 123450)
      ∧ noDecimalsText [','] 123450 = "1,235"
      ∧ noDecimalsText ['.'] 123450 = "1.235"
      ∧ noDecimalsText [' '] 123450 = "1 235" :=
  ⟨(C21_no_decimals 123450 (by decide)).1, by decide, by decide, by decide⟩

/-- C21 (as stated) fails: `28147497671065648 = 100 * 2 ^ 48 + 48` is a double;
the double nearest to `281474976710656.48` is `281474976710656.5`, which
`toFixed(0)` rounds up, so the mode without decimals renders
`281,474,976,710,657` where `c / 100` rounded to an integer is
`281474976710656`. -/
theorem C21_large_amount_counterexample :
    isDouble 7 28147497671065648 = true
      ∧ divideBy100 28147497671065648 = (4503599627370504, 4)
      ∧ formatMoney (.number (28147497671065648 : Nat)) (some "{{amount_no_decimals}}")
          = .returns "281,474,976,710,657"
      ∧ noDecimalsText [','] 28147497671065648 = "281,474,976,710,656" := by
  decide

/-! ## Properties that relate the modes -/

/-- An element of a prefix taken by a test is in the list and passes the test. -/
theorem mem_takeWhile {α : Type} (test : α → Bool) (a : α) :
    ∀ items : List α, a ∈ items.takeWhile test → a ∈ items ∧ test a = true := by
  intro items
  induction items with
  | nil => intro h; simp at h
  | cons b rest ih =>
    intro h
    by_cases hb : test b = true
    · simp only [List.takeWhile_cons, hb, if_true, List.mem_cons] at h
      rcases h with h | h
      · exact ⟨by simp [h], h ▸ hb⟩
      · exact ⟨List.mem_cons_of_mem _ (ih h).1, (ih h).2⟩
    · simp [List.takeWhile_cons, hb] at h

/-- An element of what a test leaves is in the list. -/
theorem mem_dropWhile {α : Type} (test : α → Bool) (a : α) :
    ∀ items : List α, a ∈ items.dropWhile test → a ∈ items := by
  intro items
  induction items with
  | nil => intro h; simp at h
  | cons b rest ih =>
    intro h
    by_cases hb : test b = true
    · simp only [List.dropWhile_cons, hb, if_true] at h
      exact List.mem_cons_of_mem _ (ih h)
    · simp only [List.dropWhile_cons, hb] at h
      exact h

/-- A change that leaves every element of a list alone leaves the list alone. -/
theorem map_fixed {α : Type} (change : α → α) :
    ∀ items : List α, (∀ a ∈ items, change a = a) → items.map change = items := by
  intro items
  induction items with
  | nil => intro _; rfl
  | cons b rest ih =>
    intro h
    rw [List.map_cons, h b (by simp), ih (fun a hmem => h a (by simp [hmem]))]

/-- A change of characters that leaves the text alone only changes the
separators that are inserted. -/
theorem insertThousands_map (change : Char → Char) (thousands : List Char) :
    ∀ text : List Char, (∀ ch ∈ text, change ch = ch) →
      (insertThousands thousands text).map change
        = insertThousands (thousands.map change) text := by
  intro text
  induction text with
  | nil => intro _; rfl
  | cons a rest ih =>
    intro hfixed
    have ha := hfixed a (by simp)
    have hrest := ih (fun ch hmem => hfixed ch (by simp [hmem]))
    unfold insertThousands
    split_ifs <;> simp [ha, hrest]

/-- A change of characters that leaves every character of the number other
than `.` alone only changes the two separators. -/
theorem delimit_map (change : Char → Char) (number thousands decimal : List Char)
    (hfixed : ∀ ch ∈ number, ch ≠ '.' → change ch = ch) :
    (delimit number thousands decimal).map change
      = delimit number (thousands.map change) (decimal.map change) := by
  have hfirst : ∀ ch ∈ number.takeWhile (fun ch => ch != '.'), change ch = ch := by
    intro ch hmem
    obtain ⟨h1, h2⟩ := mem_takeWhile _ ch number hmem
    exact hfixed ch h1 (by simpa using h2)
  unfold delimit
  simp only [List.map_append, insertThousands_map change thousands _ hfirst]
  congr 1
  cases hdrop : number.dropWhile (fun ch => ch != '.') with
  | nil => rfl
  | cons dot rest =>
    have hsecond : ∀ ch ∈ rest.takeWhile (fun ch => ch != '.'), change ch = ch := by
      intro ch hmem
      obtain ⟨h1, h2⟩ := mem_takeWhile _ ch rest hmem
      have hnumber : ch ∈ number :=
        mem_dropWhile _ ch number (by rw [hdrop]; exact List.mem_cons_of_mem _ h1)
      exact hfixed ch hnumber (by simpa using h2)
    simp only []
    cases hdigits : rest.takeWhile (fun ch => ch != '.') with
    | nil => rfl
    | cons d more =>
      rw [hdigits] at hsecond
      simp only [List.map_append]
      congr 1
      exact map_fixed change _ hsecond

/-- The string of `toFixed` consists of digits and `.`. -/
theorem toFixedDigits_chars (n precision : Nat) :
    ∀ ch ∈ toFixedDigits n precision, ch.isDigit = true ∨ ch = '.' := by
  have hpadded : ∀ ch ∈ List.replicate (precision + 1 - (Nat.toDigits 10 n).length) '0'
      ++ Nat.toDigits 10 n, ch.isDigit = true := by
    intro ch hmem
    rcases List.mem_append.mp hmem with h | h
    · rw [(List.mem_replicate.mp h).2]
      decide
    · exact toDigits_isDigit n ch h
  intro ch hmem
  unfold toFixedDigits at hmem
  by_cases hzero : precision = 0
  · simp only [hzero, if_true] at hmem
    exact Or.inl (toDigits_isDigit n ch hmem)
  · simp only [hzero, if_false, List.mem_append, List.mem_cons] at hmem
    rcases hmem with h | h | h
    · exact Or.inl (hpadded ch (List.mem_of_mem_take h))
    · exact Or.inr h
    · exact Or.inl (hpadded ch (List.mem_of_mem_drop h))

/-- The string of `(number / 100.0).toFixed(precision)` has no `,`, and apart
from `.` no character that one of the two changes of separators touches. -/
theorem centsToFixed_chars (number : Int) (precision : Nat) (fixed : List Char)
    (hfixed : centsToFixed number precision = some fixed) :
    ∀ ch ∈ fixed, ch ≠ '.' → exchangeCommaDot ch = ch ∧ commaToSpace ch = ch := by
  have hdigit : ∀ ch : Char, ch.isDigit = true ∨ ch = '.' → ch ≠ '.' →
      exchangeCommaDot ch = ch ∧ commaToSpace ch = ch := by
    intro ch hch hdot
    have hcomma : ch ≠ ',' := by
      rcases hch with h | h
      · intro heq
        rw [heq] at h
        exact absurd h (by decide)
      · exact absurd h hdot
    simp [exchangeCommaDot, commaToSpace, hcomma, hdot]
  intro ch hmem hdot
  unfold centsToFixed at hfixed
  split_ifs at hfixed with h1 h2 h3
  · rw [← Option.some.inj hfixed] at hmem
    exact hdigit ch (toFixedDigits_chars _ _ ch hmem) hdot
  · rw [← Option.some.inj hfixed] at hmem
    rcases List.mem_cons.mp hmem with h | h
    · rw [h]
      decide
    · exact hdigit ch (toFixedDigits_chars _ _ ch h) hdot
  · rw [← Option.some.inj hfixed] at hmem
    exact hdigit ch (toFixedDigits_chars _ _ ch hmem) hdot

/-- `formatMoney` of a number with a template that is one placeholder, in
terms of the string of `toFixed`. -/
theorem formatMoney_number (c : Int) (template : String) (word : List Char) (precision : Nat)
    (thousands decimal : Arg String)
    (hfind : findPlaceholder template.toList = some ([], word, []))
    (hvalue : valueForMode word (.number c)
      = formatWithDelimiters (.number c) (.value precision) thousands decimal) :
    formatMoney (.number c) (some template)
      = match centsToFixed c precision with
        | none => .unmodelled
        | some fixed =>
          .returns (String.mk (delimit fixed (defaultTo thousands ",").toList
            (defaultTo decimal ".").toList)) := by
  rw [formatMoney_found _ template [] word [] hfind,
    show withoutFirstDot (.number c) = .number c from rfl, hvalue]
  simp only [formatWithDelimiters, defaultTo]
  cases centsToFixed c precision with
  | none => rfl
  | some fixed =>
    simp only [Option.map_some', replacementText, List.nil_append, List.append_nil]
    rfl

/-- C25: the mode alone fixes precision and separators.  For every integer
amount `c`, `formatMoney(c, "{{amount_with_comma_separator}}")` is
`formatMoney(c, "{{amount}}")` with every `,` and `.` exchanged, and
`formatMoney(c, "{{amount_no_decimals_with_space_separator}}")` is
`formatMoney(c, "{{amount_no_decimals}}")` with every `,` replaced by a space;
for instance `123456` is rendered as `1.234,56` and `1 235`. -/
theorem C25_modes_related (c : Int) :
    formatMoney (.number c) (some "{{amount_with_comma_separator}}")
        = (formatMoney (.number c) (some "{{amount}}")).map (mapChars exchangeCommaDot)
      ∧ formatMoney (.number c) (some "{{amount_no_decimals_with_space_separator}}")
        = (formatMoney (.number c) (some "{{amount_no_decimals}}")).map
            (mapChars commaToSpace)
      ∧ formatMoney (.number 123456) (some "{{amount_with_comma_separator}}")
        = .returns "1.234,56"
      ∧ formatMoney (.number 123456) (some "{{amount_no_decimals_with_space_separator}}")
        = .returns "1 235" := by
  refine ⟨?_, ?_, by decide, by decide⟩
  · rw [formatMoney_number c _ "amount_with_comma_separator".toList 2 (.value ".") (.value ",")
        (by decide) rfl,
      formatMoney_number c _ "amount".toList 2 .undefined .undefined (by decide) rfl]
    cases hfixed : centsToFixed c 2 with
    | none => rfl
    | some fixed =>
      have hmap := delimit_map exchangeCommaDot fixed [','] ['.']
        (fun ch hmem hdot => (centsToFixed_chars c 2 fixed hfixed ch hmem hdot).1)
      show Outcome.returns (String.mk (delimit fixed ['.'] [',']))
        = Outcome.returns (String.mk ((delimit fixed [','] ['.']).map exchangeCommaDot))
      rw [hmap]
      rfl
  · rw [formatMoney_number c _ "amount_no_decimals_with_space_separator".toList 0 (.value " ")
        .undefined (by decide) rfl,
      formatMoney_number c _ "amount_no_decimals".toList 0 .undefined .undefined (by decide) rfl]
    cases hfixed : centsToFixed c 0 with
    | none => rfl
    | some fixed =>
      have hmap := delimit_map commaToSpace fixed [','] ['.']
        (fun ch hmem hdot => (centsToFixed_chars c 0 fixed hfixed ch hmem hdot).2)
      show Outcome.returns (String.mk (delimit fixed [' '] ['.']))
        = Outcome.returns (String.mk ((delimit fixed [','] ['.']).map commaToSpace))
      rw [hmap]
      rfl

/-! ## Properties of string amounts -/

/-- A digit is not white space. -/
theorem isDigit_not_space (ch : Char) (h : ch.isDigit = true) : isSpace ch = false := by
  have hbounds : 48 ≤ ch.toNat ∧ ch.toNat ≤ 57 := by
    simp only [Char.isDigit, Bool.and_eq_true, decide_eq_true_eq] at h
    exact ⟨h.1, h.2⟩
  unfold isSpace
  simp only [Bool.or_eq_false_iff, Bool.and_eq_false_iff, beq_eq_false_iff_ne, ne_eq,
    decide_eq_false_iff_not]
  omega

/-- Trimming white space leaves a text of digits as it is. -/
theorem dropWhile_isSpace_digits (digits : List Char)
    (hdigits : digits.all Char.isDigit = true) : digits.dropWhile isSpace = digits := by
  cases digits with
  | nil => rfl
  | cons ch rest =>
    have hch : ch.isDigit = true := by
      simp only [List.all_cons, Bool.and_eq_true] at hdigits
      exact hdigits.1
    simp [List.dropWhile_cons, isDigit_not_space ch hch]

/-- A text of digits converts to the integer it denotes. -/
theorem stringToNumber_digits (digits : List Char)
    (hdigits : digits.all Char.isDigit = true) :
    stringToNumber digits = .integer (digitsValue digits) := by
  have hreverse : digits.reverse.all Char.isDigit = true := by
    simpa [List.all_eq_true] using hdigits
  have htrim : ((digits.dropWhile isSpace).reverse.dropWhile isSpace).reverse = digits := by
    rw [dropWhile_isSpace_digits digits hdigits, dropWhile_isSpace_digits _ hreverse,
      List.reverse_reverse]
  unfold stringToNumber
  simp only [htrim]
  split
  · rfl
  · simp only [List.all_cons, Bool.and_eq_true] at hdigits
    exact absurd hdigits.1 (by decide)
  · simp only [List.all_cons, Bool.and_eq_true] at hdigits
    exact absurd hdigits.1 (by decide)
  · simp [hdigits]

/-- A text of digits has no `.` to delete. -/
theorem removeFirstDot_digits (digits : List Char)
    (hdigits : digits.all Char.isDigit = true) : removeFirstDot digits = digits := by
  induction digits with
  | nil => rfl
  | cons ch rest ih =>
    simp only [List.all_cons, Bool.and_eq_true] at hdigits
    have hne : (ch == '.') = false := by
      have := isDigit_ne_dot ch hdigits.1
      simpa using this
    simp only [removeFirstDot, hne, ih hdigits.2]
    rfl

/-- `formatMoney` in terms of the value computed for the captured word. -/
theorem formatMoney_eq (cents : Amount) (format : Option String) :
    formatMoney cents format
      = match findPlaceholder
          (match format with
            | none => "$"
            | some text => if text.isEmpty then "$" else text).toList with
        | none => .raises .typeError
        | some (before, word, after) =>
          match valueForMode word (withoutFirstDot cents) with
          | none => .unmodelled
          | some value => .returns (String.mk (before ++ replacementText value ++ after)) := by
  cases cents <;> rfl

/-- A string amount that converts to an integer is formatted as that integer. -/
theorem valueForMode_string (word : List Char) (text : String) (n : Int)
    (hnumber : stringToNumber text.toList = .integer n) :
    valueForMode word (.string text) = valueForMode word (.number n) := by
  have h : ∀ (precision : Arg Nat) (thousands decimal : Arg String),
      formatWithDelimiters (.string text) precision thousands decimal
        = formatWithDelimiters (.number n) precision thousands decimal := by
    intro precision thousands decimal
    simp only [formatWithDelimiters, hnumber]
  unfold valueForMode
  simp only [h]

/-- A string amount which, once its first `.` is deleted, is a text of digits
is formatted as the integer that text denotes. -/
theorem formatMoney_string (text : String) (format : Option String)
    (hdigits : (removeFirstDot text.toList).all Char.isDigit = true) :
    formatMoney (.string text) format
      = formatMoney (.number (digitsValue (removeFirstDot text.toList))) format := by
  rw [formatMoney_eq, formatMoney_eq]
  have hvalue : ∀ word, valueForMode word (withoutFirstDot (.string text))
      = valueForMode word
          (withoutFirstDot (.number (digitsValue (removeFirstDot text.toList)))) := by
    intro word
    exact valueForMode_string word (String.mk (removeFirstDot text.toList)) _
      (stringToNumber_digits _ hdigits)
  cases findPlaceholder (match format with
      | none => "$"
      | some text => if text.isEmpty then "$" else text).toList with
  | none => rfl
  | some found =>
    obtain ⟨before, word, after⟩ := found
    simp only [hvalue]

/-- C29: `formatMoney` deletes the first `.` of a string amount and treats the
remaining text as minor units: when that text consists of decimal digits the
result is that of the integer it denotes; in particular, for a string `s` of
decimal digits `formatMoney(s, t) = formatMoney(n, t)` where `n` is the integer
`s` denotes, and `formatMoney("10.50", "{{amount}}") =
formatMoney(1050, "{{amount}}") = "10.50"`. -/
theorem C29_string_amount (text : String) (format : Option String) :
    ((removeFirstDot text.toList).all Char.isDigit = true →
        formatMoney (.string text) format
          = formatMoney (.number (digitsValue (removeFirstDot text.toList))) format)
      ∧ (text.toList.all Char.isDigit = true →
          formatMoney (.string text) format
            = formatMoney (.number (digitsValue text.toList)) format)
      ∧ formatMoney (.string "10.50") (some "{{amount}}")
          = formatMoney (.number 1050) (some "{{amount}}")
      ∧ formatMoney (.number 1050) (some "{{amount}}") = .returns "10.50" := by
  refine ⟨formatMoney_string text format, ?_, by decide, by decide⟩
  intro hdigits
  have hsame := removeFirstDot_digits text.toList hdigits
  have h := formatMoney_string text format (by rw [hsame]; exact hdigits)
  rw [hsame] at h
  exact h

/-- Witness of C29: the strings `"10.50"` and `"1050"` with the template
`{{amount}}`. -/
theorem C29_string_amount_witness :
    formatMoney (.string "10.50") (some "{{amount}}")
        = formatMoney (.number (digitsValue (removeFirstDot "10.50".toList)))
            (some "{{amount}}")
      ∧ digitsValue (removeFirstDot "10.50".toList) = 1050
      ∧ formatMoney (.string "1050") (some "{{amount}}")
        = formatMoney (.number (digitsValue "1050".toList)) (some "{{amount}}") :=
  ⟨(C29_string_amount "10.50" (some "{{amount}}")).1 (by decide), by decide,
    (C29_string_amount "1050" (some "{{amount}}")).2.1 (by decide)⟩

/-! ## The invariant of the notifier -/

/-- After a call, `currentVariant` is what it was or the variant the selection
matched. -/
theorem onSelectChange_current (self : Variants) (selectedValues : List SelectedOption) :
    (_onSelectChange self selectedValues).state.currentVariant = self.currentVariant
      ∨ ((_onSelectChange self selectedValues).state.currentVariant
            = _getVariantFromOptions self.product selectedValues
          ∧ self.currentVariant ≠ none
          ∧ _getVariantFromOptions self.product selectedValues ≠ none) := by
  cases hvariant : _getVariantFromOptions self.product selectedValues with
  | none =>
    rw [onSelectChange_no_match self selectedValues hvariant]
    exact Or.inl rfl
  | some variant =>
    cases hcurrent : self.currentVariant with
    | none =>
      rw [onSelectChange_null_current self selectedValues variant hvariant hcurrent]
      exact Or.inl hcurrent
    | some current =>
      rw [onSelectChange_match self selectedValues variant current hvariant hcurrent]
      exact Or.inr ⟨(afterMatch_fields self variant current).2.1, by simp, by simp⟩

/-- A call keeps `currentVariant` inside the catalog. -/
theorem onSelectChange_in_catalog (self : Variants) (selectedValues : List SelectedOption)
    (hinv : ∀ variant, self.currentVariant = some variant → variant ∈ self.product.variants) :
    ∀ variant, (_onSelectChange self selectedValues).state.currentVariant = some variant →
      variant ∈ (_onSelectChange self selectedValues).state.product.variants := by
  intro variant hafter
  rw [onSelectChange_product]
  rcases onSelectChange_current self selectedValues with h | ⟨h, _, _⟩
  · exact hinv variant (h ▸ hafter)
  · rw [h] at hafter
    exact (getVariantFromOptions_some self.product selectedValues variant hafter).1

/-- A call never resets a current variant to `null`. -/
theorem onSelectChange_keeps_current (self : Variants) (selectedValues : List SelectedOption)
    (hcurrent : self.currentVariant ≠ none) :
    (_onSelectChange self selectedValues).state.currentVariant ≠ none := by
  rcases onSelectChange_current self selectedValues with h | ⟨h, _, hmatch⟩
  · rw [h]
    exact hcurrent
  · rw [h]
    exact hmatch

/-- No sequence of option-change events changes `product`. -/
theorem optionChanges_product (selections : List (List SelectedOption)) :
    ∀ state : Variants, (optionChanges state selections).product = state.product := by
  induction selections with
  | nil => intro state; rfl
  | cons selectedValues rest ih =>
    intro state
    simp only [optionChanges, List.foldl_cons]
    exact (ih _).trans (onSelectChange_product state selectedValues)

/-- C30: after construction and after every sequence of calls of
`_onSelectChange`, `currentVariant` is `null` or a variant of the product
catalog; construction with a selection that matches a variant, and every call
that returns normally on a selection that matches a variant, leave
`currentVariant` equal to that variant; and once it is not `null`, no later
call makes it `null` again. -/
theorem C30_notifier_invariant (product : Product) (history : Bool) (master : Option Nat)
    (location : Location) (entries : Nat) (replace : Bool) (initial : List SelectedOption) :
    (∀ (selections : List (List SelectedOption)) (variant : Variant),
        (optionChanges (Variants.new product history master location entries replace initial)
          selections).currentVariant = some variant →
        variant ∈ product.variants)
      ∧ (∀ variant, _getVariantFromOptions product initial = some variant →
          (Variants.new product history master location entries replace
            initial).currentVariant = some variant)
      ∧ (∀ (self : Variants) (selectedValues : List SelectedOption) (variant : Variant),
          (_onSelectChange self selectedValues).raised = false →
          _getVariantFromOptions self.product selectedValues = some variant →
          (_onSelectChange self selectedValues).state.currentVariant = some variant)
      ∧ (∀ (self : Variants) (selections : List (List SelectedOption)),
          self.currentVariant ≠ none →
          (optionChanges self selections).currentVariant ≠ none) := by
  refine ⟨?_, fun _ h => h, ?_, ?_⟩
  · intro selections
    have hall : ∀ state : Variants,
        (∀ variant, state.currentVariant = some variant → variant ∈ state.product.variants) →
        ∀ variant, (optionChanges state selections).currentVariant = some variant →
          variant ∈ (optionChanges state selections).product.variants := by
      induction selections with
      | nil => intro state hinv; exact hinv
      | cons selectedValues rest ih =>
        intro state hinv
        simp only [optionChanges, List.foldl_cons]
        exact ih _ (onSelectChange_in_catalog state selectedValues hinv)
    intro variant hafter
    have hstart : ∀ found,
        (Variants.new product history master location entries replace initial).currentVariant
          = some found →
        found ∈ (Variants.new product history master location entries replace
          initial).product.variants :=
      fun found h => (getVariantFromOptions_some product initial found h).1
    have hmem := hall _ hstart variant hafter
    rw [optionChanges_product] at hmem
    exact hmem
  · intro self selectedValues variant hreturned hvariant
    cases hcurrent : self.currentVariant with
    | none =>
      rw [onSelectChange_null_current self selectedValues variant hvariant hcurrent] at hreturned
      have hraised : (true : Bool) = false := hreturned
      exact Bool.noConfusion hraised
    | some current =>
      rw [onSelectChange_match self selectedValues variant current hvariant hcurrent]
      exact (afterMatch_fields self variant current).2.1
  · intro self selections
    induction selections generalizing self with
    | nil => intro h; exact h
    | cons selectedValues rest ih =>
      intro hcurrent
      simp only [optionChanges, List.foldl_cons]
      exact ih _ (onSelectChange_keeps_current self selectedValues hcurrent)

/-- Witness of C30: the notifier constructed on `{Color = Red, Size = S}`, then
the selections `{Color = Red, Size = M}` and `{Color = Green, Size = S}`. -/
theorem C30_notifier_invariant_witness :
    redM ∈ twoReds.variants
      ∧ loadedOnRedS.currentVariant = some redS
      ∧ (_onSelectChange loadedOnRedS colorRedSizeM).state.currentVariant = some redM
      ∧ (optionChanges loadedOnRedS [colorRedSizeM, colorGreenSizeS]).currentVariant ≠ none :=
  have h := C30_notifier_invariant twoReds true (some 1) shirtPage 1 true colorRedSizeS
  ⟨h.1 [colorRedSizeM, colorGreenSizeS] redM (by decide), h.2.1 redS (by decide),
    h.2.2.1 loadedOnRedS colorRedSizeM redM (by decide) (by decide),
    h.2.2.2 loadedOnRedS [colorRedSizeM, colorGreenSizeS] (by decide)⟩

end Slate
